import Mathlib

/-!
# GoServer: the pattern matcher, the dispatcher and the middleware of `server.go`

A shallow embedding of `src/src/server.go`.

* A Go `string` is a sequence of bytes: `GoString := List UInt8`.
* A Go `map` is an association list in which a key occurs at most once after a write
  (`GoMap.set` removes every older entry of the key); a `nil` map is `none`.
* The effects of a handler are the calls it issues on the response sink and the lines it
  hands to the logger; both are recorded, in order, in a `World`. The sink is an interface
  value in the source, so what is modelled is the sequence of calls, not what an
  implementation of the sink makes of them.
* A handler either returns or panics: `Outcome`. The value of a panic may be `nil`
  (`none`), the case the guard `err != nil` of `recoverhandler` tells apart.
* What the source takes from its surroundings is a parameter: the file provider and
  `path.Join` for `staticHandler`, the clock readings and the renderings of the log format
  for `loghandler` (`LogEnv`).
* The order of a `range` over a map is not fixed by the language: the dispatcher is defined
  on an enumeration of the entries, and statements hold for every permutation of them
  (`Enumerates`).
-/

namespace GoServer

/-! ## Strings -/

/-- Go strings are byte sequences. -/
abbrev GoString := List UInt8

/-- The bytes (UTF-8) of a string literal of the source. -/
def str (s : String) : GoString := s.data.flatMap String.utf8EncodeChar

/-- The byte `'/'`. -/
abbrev slash : UInt8 := 47

/-- The byte `':'`. -/
abbrev colon : UInt8 := 58

/-- `strings.Split(s, sep)` for a separator of one byte: the substrings of `s` between the
occurrences of `sep`; one more element than there are separators, so never empty. -/
def Split (s : GoString) (sep : UInt8) : List GoString :=
  match s with
  | [] => [[]]
  | c :: cs =>
    if c = sep then [] :: Split cs sep
    else
      match Split cs sep with
      | [] => [[c]]
      | seg :: segs => (c :: seg) :: segs

/-- `strings.HasSuffix(s, suffix)`. -/
def HasSuffix (s suffix : GoString) : Bool :=
  suffix.length ≤ s.length && s.drop (s.length - suffix.length) == suffix

/-! ## Maps -/

/-- A Go map as an association list. -/
abbrev GoMap (K V : Type) := List (K × V)

/-- The read `m[k]` with its `ok` flag: `none` when `k` is not a key of `m`. -/
def GoMap.get {K V : Type} [DecidableEq K] (m : GoMap K V) (k : K) : Option V :=
  match m with
  | [] => none
  | (k', v) :: rest => if k' = k then some v else GoMap.get rest k

/-- The write `m[k] = v`: any older entry of `k` is dropped, the new one is added. -/
def GoMap.set {K V : Type} [DecidableEq K] (m : GoMap K V) (k : K) (v : V) : GoMap K V :=
  m.filter (fun e => decide (e.1 ≠ k)) ++ [(k, v)]

/-- The keys of a map. -/
def GoMap.keys {K V : Type} (m : GoMap K V) : List K := m.map Prod.fst

/-- The bindings of a string-to-string map. -/
abbrev Params := GoMap GoString GoString

/-- The read `params[k]` on a map that may be `nil`: reading a `nil` map finds nothing. -/
def lookup (m : Option Params) (k : GoString) : Option GoString :=
  match m with
  | none => none
  | some ps => GoMap.get ps k

/-! ## The pattern matcher -/

/-- The guard `len(patterns[i]) > 0 && patterns[i][0] == ':'`. -/
def isParam (seg : GoString) : Bool :=
  match seg with
  | [] => false
  | c :: _ => c == colon

/-- The loop `for i := 0; i < len(patterns); i++` of `match`, on the segments from index `i`
on; `params` is the map built so far and `patterns[i][1:]` is `p.drop 1`. The loop runs
only after the two lengths were found equal, so the second case (no `paths[i]` left) is
never reached from `goMatch`. -/
def matchLoop (patterns paths : List GoString) (params : Params) : Bool × Option Params :=
  match patterns, paths with
  | [], _ => (true, some params)
  | _ :: _, [] => (false, none)
  | p :: ps, x :: xs =>
    if p = x then matchLoop ps xs params
    else if isParam p then matchLoop ps xs (GoMap.set params (p.drop 1) x)
    else (false, none)

/-- The function `match(pattern, path)` of the source: the flag and the map, which is `nil`
(`none`) on the equal-strings shortcut and on every failure. -/
def goMatch (pattern path : GoString) : Bool × Option Params :=
  if pattern = path then (true, none)
  else
    let patterns := Split pattern slash
    let paths := Split path slash
    if patterns.length ≠ paths.length then (false, none)
    else matchLoop patterns paths []

/-! ## Requests, the response sink, the log -/

/-- The part of `url.URL` the source reads: `URL.Path` and the query that `URL.String()`
renders after it. -/
structure URL where
  Path : GoString
  RawQuery : GoString
  deriving DecidableEq

/-- The part of `http.Request` the source reads. -/
structure Request where
  Method : GoString
  URL : URL
  deriving DecidableEq

/-- What `os.FileInfo` answers to `IsDir()` and `ModTime()`; a time is an instant number. -/
structure FileInfo where
  IsDir : Bool
  ModTime : Nat
  deriving DecidableEq

/-- An opened `http.File`: `Stat` is `none` when `f.Stat()` returns an error. -/
structure File where
  Stat : Option FileInfo
  content : GoString
  deriving DecidableEq

/-- The file provider `http.Dir(".")`: `Open name` is `none` when `dir.Open` returns an
error. -/
abbrev Dir := GoString → Option File

/-- The calls the source issues on the response sink `c.res_w`, through `net/http` and
`fmt`. -/
inductive SinkCall where
  | Error (msg : GoString) (code : Nat)
  | Redirect (url : GoString) (code : Nat)
  | ServeContent (name : GoString) (modtime : Nat) (content : File)
  | Fprint (text : GoString)
  deriving DecidableEq

/-- What a request leaves behind: the calls on the response sink and the messages handed to
`log.Printf`, both oldest first. -/
structure World where
  resp : List SinkCall
  log : List GoString
  deriving DecidableEq

/-- A non-nil value carried by a panic, by the text `%+v` prints for it. -/
structure PanicValue where
  text : GoString
  deriving DecidableEq

/-- How a call of a handler ends: it returns, or it panics; either way with the effects it
had until then. The value `v` of a panic is what `recover()` returns for it: `none` is the
`nil` interface value, which `recover()` returns after `panic(nil)` in a program built with
the panic semantics from before Go 1.21 (the repository fixes no Go version; with the later
semantics `panic(nil)` carries a non-nil runtime error and no call ends with `none`). -/
inductive Outcome where
  | returned (w : World)
  | panicked (v : Option PanicValue) (w : World)
  deriving DecidableEq

/-- The effects accumulated when the call ended. -/
def Outcome.world (o : Outcome) : World :=
  match o with
  | Outcome.returned w => w
  | Outcome.panicked _ w => w

/-- The struct `Context`; the sink `res_w` is the `resp` component of the `World` that is
threaded through the handler. Values of `para` are the strings the matcher bound. -/
structure Context where
  para : GoMap GoString GoString
  req : Request

/-- The type `HandlerFunc func(*Context)`, with its effects made explicit. A handler reads
the Context it is given; it is taken not to assign to its fields. -/
abbrev HandlerFunc := Context → World → Outcome

/-- The constant `http.StatusFound`. -/
abbrev StatusFound : Nat := 302

/-- The constant `http.StatusNotFound`. -/
abbrev StatusNotFound : Nat := 404

/-- The constant `http.StatusInternalServerError`. -/
abbrev StatusInternalServerError : Nat := 500

/-- The entries of `http.StatusText` for the codes the source uses; the library returns the
empty string for an unknown code. -/
def StatusText (code : Nat) : GoString :=
  if code = 302 then str "Found"
  else if code = 404 then str "Not Found"
  else if code = 500 then str "Internal Server Error"
  else []

/-- The call `http.Error(w, msg, code)`. -/
def Error (w : World) (msg : GoString) (code : Nat) : World :=
  { w with resp := w.resp ++ [SinkCall.Error msg code] }

/-- The call `http.NotFound(w, r)`, which the library defines as
`Error(w, "404 page not found", StatusNotFound)`. -/
def NotFound (w : World) : World :=
  Error w (str "404 page not found") StatusNotFound

/-- The call `http.Redirect(w, r, url, code)`. -/
def Redirect (w : World) (url : GoString) (code : Nat) : World :=
  { w with resp := w.resp ++ [SinkCall.Redirect url code] }

/-- The call `http.ServeContent(w, req, name, modtime, content)`. -/
def ServeContent (w : World) (name : GoString) (modtime : Nat) (content : File) : World :=
  { w with resp := w.resp ++ [SinkCall.ServeContent name modtime content] }

/-- The call `log.Printf` with its message already formatted. -/
def Printf (w : World) (msg : GoString) : World :=
  { w with log := w.log ++ [msg] }

/-- The calls `fmt.Fprintln(c.res_w, text)` and `fmt.Fprintf(c.res_w, ...)`, with the text
already formatted, the final newline included. -/
def Fprint (w : World) (text : GoString) : World :=
  { w with resp := w.resp ++ [SinkCall.Fprint text] }

/-! ## The middleware -/

/-- The wrapper `recoverhandler`: the deferred function runs when `next` has ended. After a
return `recover()` is `nil` and nothing is done. After a panic the call returns normally,
and the guard `err != nil` decides: for a non-nil value the line `"Panic : %+v"` is logged
and then `http.Error` is called with the text and the code of status 500; for a `nil` value
nothing is logged and nothing is written. -/
def recoverhandler (next : HandlerFunc) : HandlerFunc := fun c w =>
  match next c w with
  | Outcome.returned w1 => Outcome.returned w1
  | Outcome.panicked none w1 => Outcome.returned w1
  | Outcome.panicked (some err) w1 =>
    Outcome.returned
      (Error (Printf w1 (str "Panic : " ++ err.text))
        (StatusText StatusInternalServerError) StatusInternalServerError)

/-- The local `indexFile` of `staticHandler`. -/
def indexFile : GoString := str "index.html"

/-- The wrapper `staticHandler`. The provider `dir` (the local `dir = http.Dir(".")`) and the
library function `path.Join` are parameters. The first `ff` is declared in the function body;
inside the `if ff.IsDir()` block `f` and `file` are assigned with `=`, while
`ff, err := f.Stat()` declares a new `ff` (here `ff2`) whose scope ends with the block, so
the `ff` of the last line is always the first one. -/
def staticHandler (dir : Dir) (pathJoin : GoString → GoString → GoString)
    (next : HandlerFunc) : HandlerFunc := fun c w =>
  if c.req.Method ≠ str "GET" ∧ c.req.Method ≠ str "HEAD" then next c w
  else
    let file := c.req.URL.Path
    match dir file with
    | none => next c w
    | some f =>
      match f.Stat with
      | none => next c w
      | some ff =>
        if ff.IsDir then
          if !HasSuffix c.req.URL.Path (str "/") then
            Outcome.returned (Redirect w (c.req.URL.Path ++ str "/") StatusFound)
          else
            let file2 := pathJoin file indexFile
            match dir file2 with
            | none => next c w
            | some f2 =>
              match f2.Stat with
              | none => next c w
              | some ff2 =>
                if ff2.IsDir then next c w
                else Outcome.returned (ServeContent w file2 ff.ModTime f2)
        else Outcome.returned (ServeContent w file ff.ModTime f)

/-! ## The route table and the dispatcher -/

/-- The struct `router`: method, then pattern, then handler. -/
structure router where
  handlers : GoMap GoString (GoMap GoString HandlerFunc)

/-- The read `r.handlers[method]`: the inner map, empty (`nil`) when the method has no
registration. -/
def router.table (r : router) (method : GoString) : GoMap GoString HandlerFunc :=
  (GoMap.get r.handlers method).getD []

/-- The method `HandleFunc`: the inner map of `method` is created when absent, then
`m[pattern] = h`. In Go `m` refers to the inner map itself, so the write is seen through
`r.handlers[method]`; here the entry of `method` is rewritten with the updated inner map. -/
def router.HandleFunc (r : router) (method pattern : GoString) (h : HandlerFunc) : router :=
  match GoMap.get r.handlers method with
  | some m => { handlers := GoMap.set r.handlers method (GoMap.set m pattern h) }
  | none => { handlers := GoMap.set r.handlers method (GoMap.set [] pattern h) }

/-- An order in which `range m` may visit the map `m`: every entry once, in any order. -/
def Enumerates {K V : Type} (m : GoMap K V) (es : List (K × V)) : Prop := es.Perm m

/-- The loop `for method, data := range params { c.para[method] = data }` on a fresh map,
visiting the entries in the order of the list; a `nil` map has no entry to visit. The keys of
`params` are distinct, so every visiting order yields the same bindings
(`copy_order_irrelevant`). -/
def copyParams (params : Option Params) : GoMap GoString GoString :=
  match params with
  | none => []
  | some ps => ps.foldl (fun para e => GoMap.set para e.1 e.2) []

/-- The method `ServeHTTP`, on the order `entries` in which the `range` over
`r.handlers[re.Method]` visits the map: the first entry whose pattern matches gets the
Context and is called, and the function returns with it; when the loop ends without a match,
`http.NotFound`. -/
def ServeHTTP (entries : List (GoString × HandlerFunc)) (re : Request) (w : World) : Outcome :=
  match entries with
  | [] => Outcome.returned (NotFound w)
  | (pattern, handler) :: rest =>
    match goMatch pattern re.URL.Path with
    | (true, params) => handler { para := copyParams params, req := re } w
    | (false, _) => ServeHTTP rest re w

/-- The function `SetPage`: registers a handler that prints `text` and a newline. -/
def SetPage (r : router) (method page text : GoString) : router :=
  r.HandleFunc method page (fun _ w => Outcome.returned (Fprint w (text ++ str "\n")))

/-- The handler that `main` registers (inside `recoverhandler`) for `/users/:id`: it panics
with `"id is zero"` when the parameter `id` is `"0"`, and prints the parameter otherwise
(`%v` prints `<nil>` for a key that is not bound). -/
def usersIdHandler : HandlerFunc := fun c w =>
  if GoMap.get c.para (str "id") = some (str "0") then
    Outcome.panicked (some { text := str "id is zero" }) w
  else
    Outcome.returned
      (Fprint w (str "Retrieve User id : " ++
        (GoMap.get c.para (str "id")).getD (str "<nil>") ++ str "\n"))

/-! ## Concrete inputs used below -/

/-- A router with no registration, as `main` creates it. -/
def emptyRouter : router := { handlers := [] }

/-- The request `GET path`. -/
def getRequest (path : GoString) : Request :=
  { Method := str "GET", URL := { Path := path, RawQuery := [] } }

/-- The state before a request: nothing written, nothing logged. -/
def emptyWorld : World := { resp := [], log := [] }

/-- A handler that writes to the response sink and then panics. -/
def writeThenPanic : HandlerFunc := fun _ w =>
  Outcome.panicked (some { text := str "boom" }) (Fprint w (str "partial"))

/-- A file provider with the directory `/public/` (modified at instant 100) and the regular
file `/public/index.html` (modified at instant 200). -/
def exampleDir : Dir := fun name =>
  if name = str "/public/" then
    some { Stat := some { IsDir := true, ModTime := 100 }, content := [] }
  else if name = str "/public/index.html" then
    some { Stat := some { IsDir := false, ModTime := 200 }, content := str "<html></html>" }
  else none

/-- The value of `path.Join(dir, name)` when `dir` is a clean path that ends in `"/"` and
`name` a plain file name, as in the example: the concatenation. -/
def joinUnder (dir name : GoString) : GoString := dir ++ name

/-! ## Logging and the routes of `main` -/

/-- What one call of the handler made by `loghandler` takes from outside the source: the two
readings of `time.Now()`, before and after `next`, and the library renderings used by the
format `"[%s] %q %v\n"`: `(*URL).String`, the verb `%q`, and the verb `%v` on a
`time.Duration`. -/
structure LogEnv where
  start : Int
  finish : Int
  urlString : URL → GoString
  quote : GoString → GoString
  duration : Int → GoString

/-- The message `loghandler` hands to `log.Printf`: `[METHOD] "url" duration` and a
newline. -/
def completionLine (env : LogEnv) (re : Request) : GoString :=
  str "[" ++ re.Method ++ str "] " ++ env.quote (env.urlString re.URL) ++ str " " ++
    env.duration (env.finish - env.start) ++ str "\n"

/-- The wrapper `loghandler`: `next(c)` and then, when `next` has returned, `log.Printf`.
There is no `defer`: a panic of `next` goes through and the line is not logged. -/
def loghandler (env : LogEnv) (next : HandlerFunc) : HandlerFunc := fun c w =>
  match next c w with
  | Outcome.returned w1 => Outcome.returned (Printf w1 (completionLine env c.req))
  | Outcome.panicked err w1 => Outcome.panicked err w1

/-- What `%v` prints for `c.para[k]`: the bound string, or `<nil>` for a key that is not
bound. -/
def showPara (c : Context) (k : GoString) : GoString :=
  (GoMap.get c.para k).getD (str "<nil>")

/-- The routes `main` registers, in the order of the source, on the empty router; the file
provider and `path.Join` of `staticHandler` and the surroundings of `loghandler` are
parameters. -/
def mainRouter (env : LogEnv) (dir : Dir) (pathJoin : GoString → GoString → GoString) :
    router :=
  let r0 := emptyRouter
  let r1 := SetPage r0 (str "GET") (str "/") (str "Welcome !")
  let r2 := SetPage r1 (str "GET") (str "/about") (str "This is ABOUT Page !")
  let r3 := r2.HandleFunc (str "GET") (str "/public/index.html")
    (loghandler env (recoverhandler (staticHandler dir pathJoin
      (fun _ w => Outcome.returned w))))
  let r4 := r3.HandleFunc (str "GET") (str "/users/:id")
    (loghandler env (recoverhandler usersIdHandler))
  let r5 := SetPage r4 (str "POST") (str "/users") (str "Create User Page !")
  let r6 := r5.HandleFunc (str "GET") (str "/users/:user_id/addr/:addr_id")
    (loghandler env (fun c w =>
      Outcome.returned (Fprint w (str "Retrieve User id : " ++ showPara c (str "user_id") ++
        str ", Address id : " ++ showPara c (str "addr_id") ++ str "\n"))))
  r6.HandleFunc (str "POST") (str "/users/:user_id/addr/")
    (loghandler env (fun c w =>
      Outcome.returned
        (Fprint w (str "Retrieve User id : " ++ showPara c (str "user_id") ++ str "\n"))))

/-- Surroundings for the examples: the clock reads 10 and then 17, and the renderings are
kept simple (the path, double quotes around the text, a fixed text for the duration). -/
def exampleEnv : LogEnv :=
  { start := 10, finish := 17,
    urlString := fun u => u.Path,
    quote := fun t => str "\"" ++ t ++ str "\"",
    duration := fun _ => str "7ns" }

/-- A handler that panics at once. -/
def panicNow : HandlerFunc := fun _ w => Outcome.panicked (some { text := str "boom" }) w

/-- A handler that calls `panic(nil)` at once, in a program where `recover()` then returns
`nil`. -/
def panicNil : HandlerFunc := fun _ w => Outcome.panicked none w

/-- The request `method path`. -/
def request (method path : GoString) : Request :=
  { Method := method, URL := { Path := path, RawQuery := [] } }

/-- What a pattern fixes of every path it matches when its second segment is literal: the
number of segments and the second segment. -/
def sigOf (s : GoString) : Nat × Option GoString :=
  ((Split s slash).length, (Split s slash)[1]?)

/-- The pattern has a second segment and it is not a parameter segment. -/
def literalAt1 (pattern : GoString) : Bool :=
  match (Split pattern slash)[1]? with
  | some seg => !isParam seg
  | none => false

/-- A pattern segment accepts a path segment: it equals it, or it is a parameter segment. -/
def SegOK (p x : GoString) : Prop := p = x ∨ isParam p = true

/-! ## Lemmas on `Split` and `matchLoop` -/

theorem Split_ne_nil (s : GoString) (sep : UInt8) : Split s sep ≠ [] := by
  induction s with
  | nil => simp [Split]
  | cons c cs ih =>
    unfold Split
    split
    · simp
    · split
      · simp
      · simp

/-- Joining the segments with the separator gives the string back. -/
theorem intercalate_Split (s : GoString) (sep : UInt8) :
    List.intercalate [sep] (Split s sep) = s := by
  induction s with
  | nil => simp [Split, List.intercalate]
  | cons c cs ih =>
    unfold Split
    split
    · next h =>
      subst h
      have hne := Split_ne_nil cs c
      cases hsp : Split cs c with
      | nil => exact absurd hsp hne
      | cons seg segs =>
        rw [hsp] at ih
        simp only [List.intercalate, List.intersperse, List.flatten, List.nil_append,
          List.singleton_append] at ih ⊢
        rw [ih]
    · cases hsp : Split cs sep with
      | nil => exact absurd hsp (Split_ne_nil cs sep)
      | cons seg segs =>
        rw [hsp] at ih
        cases segs with
        | nil =>
          simp only [List.intercalate, List.intersperse, List.flatten, List.append_nil] at ih ⊢
          rw [ih]
        | cons seg2 rest =>
          simp only [List.intercalate, List.intersperse, List.flatten, List.cons_append] at ih ⊢
          rw [ih]

theorem Split_injective (a b : GoString) (sep : UInt8) (h : Split a sep = Split b sep) :
    a = b := by
  rw [← intercalate_Split a sep, ← intercalate_Split b sep, h]

theorem matchLoop_fst (ps xs : List GoString) (acc : Params) (hlen : ps.length = xs.length) :
    (matchLoop ps xs acc).1 = true ↔ List.Forall₂ SegOK ps xs := by
  induction ps generalizing xs acc with
  | nil =>
    cases xs with
    | nil => simp [matchLoop]
    | cons x xs => simp at hlen
  | cons p ps ih =>
    cases xs with
    | nil => simp at hlen
    | cons x xs =>
      have hl : ps.length = xs.length := by simpa using hlen
      unfold matchLoop
      by_cases hpx : p = x
      · simp only [hpx, if_true, List.forall₂_cons, SegOK, true_or, true_and]
        exact ih xs acc hl
      · by_cases hpar : isParam p = true
        · simp only [hpx, hpar, if_false, if_true, List.forall₂_cons, SegOK, or_true, true_and]
          exact ih xs _ hl
        · simp [hpx, hpar, SegOK]

theorem forall₂_SegOK_self (l : List GoString) : List.Forall₂ SegOK l l := by
  induction l with
  | nil => exact List.Forall₂.nil
  | cons a l ih => exact List.Forall₂.cons (Or.inl rfl) ih

theorem goMatch_fst (P X : GoString) :
    (goMatch P X).1 = true ↔ List.Forall₂ SegOK (Split P slash) (Split X slash) := by
  unfold goMatch
  by_cases h : P = X
  · subst h
    rw [if_pos rfl]
    exact ⟨fun _ => forall₂_SegOK_self _, fun _ => rfl⟩
  · simp only [h, if_false]
    by_cases hlen : (Split P slash).length = (Split X slash).length
    · simp only [hlen, ne_eq, not_true_eq_false, if_false]
      exact matchLoop_fst _ _ _ hlen
    · simp only [ne_eq, hlen, not_false_eq_true, if_true]
      constructor
      · intro hf
        simp at hf
      · intro hf
        exact absurd hf.length_eq hlen

theorem isParam_iff (seg : GoString) :
    isParam seg = true ↔ ∃ name : GoString, seg = colon :: name := by
  cases seg with
  | nil => simp [isParam]
  | cons c cs => simp [isParam]

theorem GoMap.get_set_self {K V : Type} [DecidableEq K] (m : GoMap K V) (k : K) (v : V) :
    GoMap.get (GoMap.set m k v) k = some v := by
  induction m with
  | nil => simp [GoMap.set, GoMap.get]
  | cons e m ih =>
    obtain ⟨k', v'⟩ := e
    simp only [GoMap.set] at ih ⊢
    rw [List.filter_cons]
    split
    · next h =>
      have hk : ¬ k' = k := by simpa using h
      simpa [GoMap.get, hk] using ih
    · exact ih

theorem GoMap.get_set_ne {K V : Type} [DecidableEq K] (m : GoMap K V) (k k' : K) (v : V)
    (hne : k ≠ k') : GoMap.get (GoMap.set m k v) k' = GoMap.get m k' := by
  induction m with
  | nil => simp [GoMap.set, GoMap.get, hne]
  | cons e m ih =>
    obtain ⟨k₀, v₀⟩ := e
    simp only [GoMap.set] at ih ⊢
    rw [List.filter_cons]
    split
    · next h =>
      by_cases hk' : k₀ = k'
      · simp [GoMap.get, hk']
      · simpa [GoMap.get, hk'] using ih
    · next h =>
      have hk : k₀ = k := by simpa using h
      have hk' : ¬ k₀ = k' := by rw [hk]; exact hne
      simpa [GoMap.get, hk'] using ih

/-- Positions whose pattern segment is `:name` only where the path segment is that very
text leave the binding of `name` as it was. -/
theorem matchLoop_keeps (name : GoString) (ps xs : List GoString) (acc : Params)
    (hm : (matchLoop ps xs acc).1 = true)
    (hlater : ∀ (j : Nat) (y : GoString), ps[j]? = some (colon :: name) → xs[j]? = some y →
      y = colon :: name) :
    lookup (matchLoop ps xs acc).2 name = GoMap.get acc name := by
  induction ps generalizing xs acc with
  | nil => simp [matchLoop, lookup]
  | cons p ps ih =>
    cases xs with
    | nil => simp [matchLoop] at hm
    | cons x xs =>
      have htail : ∀ (j : Nat) (y : GoString), ps[j]? = some (colon :: name) →
          xs[j]? = some y → y = colon :: name := fun j y h1 h2 =>
        hlater (j + 1) y (by simpa using h1) (by simpa using h2)
      unfold matchLoop at hm ⊢
      by_cases hpx : p = x
      · simp only [hpx, if_true] at hm ⊢
        exact ih xs acc hm htail
      · by_cases hpar : isParam p = true
        · simp only [hpx, hpar, if_false, if_true] at hm ⊢
          obtain ⟨n, hn⟩ := (isParam_iff p).1 hpar
          have hne : n ≠ name := by
            intro hnn
            apply hpx
            rw [hn, hnn]
            exact (hlater 0 x (by simp [hn, hnn]) (by simp)).symm
          rw [ih xs _ hm htail]
          have hdrop : List.drop 1 p = n := by simp [hn]
          rw [hdrop]
          exact GoMap.get_set_ne acc n name x hne
        · simp [hpx, hpar] at hm

/-- The binding of `name` after a successful loop is the path segment at the last position
whose pattern segment is `:name` and differs from its path segment. -/
theorem matchLoop_binds (name x : GoString) (ps xs : List GoString) (acc : Params) (i : Nat)
    (hm : (matchLoop ps xs acc).1 = true)
    (hp : ps[i]? = some (colon :: name)) (hx : xs[i]? = some x) (hne : colon :: name ≠ x)
    (hlater : ∀ (j : Nat) (y : GoString), i < j → ps[j]? = some (colon :: name) →
      xs[j]? = some y → y = colon :: name) :
    lookup (matchLoop ps xs acc).2 name = some x := by
  induction ps generalizing xs acc i with
  | nil => simp at hp
  | cons p ps ih =>
    cases xs with
    | nil => simp at hx
    | cons y xs =>
      cases i with
      | zero =>
        have hp0 : p = colon :: name := by simpa using hp
        have hx0 : y = x := by simpa using hx
        subst hx0
        have hpx : ¬ p = y := by rw [hp0]; exact hne
        have hpar : isParam p = true := (isParam_iff p).2 ⟨name, hp0⟩
        have htail : ∀ (j : Nat) (z : GoString), ps[j]? = some (colon :: name) →
            xs[j]? = some z → z = colon :: name := fun j z h1 h2 =>
          hlater (j + 1) z (Nat.succ_pos j) (by simpa using h1) (by simpa using h2)
        unfold matchLoop at hm ⊢
        simp only [hpx, hpar, if_false, if_true] at hm ⊢
        rw [matchLoop_keeps name ps xs _ hm htail]
        have hdrop : List.drop 1 p = name := by simp [hp0]
        rw [hdrop]
        exact GoMap.get_set_self acc name y
      | succ i =>
        have hp1 : ps[i]? = some (colon :: name) := by simpa using hp
        have hx1 : xs[i]? = some x := by simpa using hx
        have htail : ∀ (j : Nat) (z : GoString), i < j → ps[j]? = some (colon :: name) →
            xs[j]? = some z → z = colon :: name := fun j z hij h1 h2 =>
          hlater (j + 1) z (Nat.succ_lt_succ hij) (by simpa using h1) (by simpa using h2)
        unfold matchLoop at hm ⊢
        by_cases hpy : p = y
        · simp only [hpy, if_true] at hm ⊢
          exact ih xs acc i hm hp1 hx1 htail
        · by_cases hpar : isParam p = true
          · simp only [hpy, hpar, if_false, if_true] at hm ⊢
            exact ih xs _ i hm hp1 hx1 htail
          · simp [hpy, hpar] at hm

/-- When the strings differ and the matcher succeeds, the result is that of the loop. -/
theorem goMatch_eq_matchLoop (P X : GoString) (hne : P ≠ X)
    (hm : (goMatch P X).1 = true) :
    goMatch P X = matchLoop (Split P slash) (Split X slash) [] := by
  unfold goMatch at hm ⊢
  simp only [hne, if_false] at hm ⊢
  by_cases hlen : (Split P slash).length = (Split X slash).length
  · simp [hlen]
  · simp [hlen] at hm

/-! ## Lemmas on maps, on the copy of the parameters and on the dispatcher -/

theorem GoMap.set_of_not_mem {K V : Type} [DecidableEq K] (m : GoMap K V) (k : K) (v : V)
    (hk : k ∉ GoMap.keys m) : GoMap.set m k v = m ++ [(k, v)] := by
  unfold GoMap.set
  congr 1
  rw [List.filter_eq_self]
  intro e he
  have : e.1 ≠ k := by
    intro h
    exact hk (by rw [← h]; exact List.mem_map_of_mem Prod.fst he)
  simpa using this

theorem GoMap.mem_set {K V : Type} [DecidableEq K] (m : GoMap K V) (k : K) (v : V)
    (e : K × V) : e ∈ GoMap.set m k v ↔ (e ∈ m ∧ e.1 ≠ k) ∨ e = (k, v) := by
  simp [GoMap.set, List.mem_filter]

theorem GoMap.set_keys_nodup {K V : Type} [DecidableEq K] (m : GoMap K V) (k : K) (v : V)
    (hm : (GoMap.keys m).Nodup) : (GoMap.keys (GoMap.set m k v)).Nodup := by
  unfold GoMap.keys GoMap.set at *
  rw [List.map_append, List.nodup_append]
  refine ⟨(List.Nodup.sublist ((List.filter_sublist m).map Prod.fst) hm), by simp, ?_⟩
  intro a ha hb
  simp only [List.map_cons, List.map_nil, List.mem_singleton] at hb
  subst hb
  rw [List.mem_map] at ha
  obtain ⟨e, he, hfst⟩ := ha
  have := (List.mem_filter.1 he).2
  simp [hfst] at this

theorem foldl_set_eq (l acc : Params) (hnd : (GoMap.keys (acc ++ l)).Nodup) :
    l.foldl (fun para e => GoMap.set para e.1 e.2) acc = acc ++ l := by
  induction l generalizing acc with
  | nil => simp
  | cons e l ih =>
    have hk : e.1 ∉ GoMap.keys acc := by
      unfold GoMap.keys at hnd ⊢
      rw [List.map_append, List.nodup_append] at hnd
      intro hmem
      exact hnd.2.2 hmem (by simp)
    rw [List.foldl_cons, GoMap.set_of_not_mem acc e.1 e.2 hk]
    have hnd2 : (GoMap.keys ((acc ++ [(e.1, e.2)]) ++ l)).Nodup := by
      simpa using hnd
    rw [ih (acc ++ [(e.1, e.2)]) hnd2]
    simp

theorem GoMap.get_eq_some_iff_mem {K V : Type} [DecidableEq K] (m : GoMap K V) (k : K)
    (v : V) (hnd : (GoMap.keys m).Nodup) : GoMap.get m k = some v ↔ (k, v) ∈ m := by
  induction m with
  | nil => simp [GoMap.get]
  | cons e m ih =>
    obtain ⟨k0, v0⟩ := e
    have hnd2 : (GoMap.keys m).Nodup := (List.nodup_cons.1 hnd).2
    have hk0 : k0 ∉ GoMap.keys m := (List.nodup_cons.1 hnd).1
    unfold GoMap.get
    by_cases hk : k0 = k
    · subst hk
      simp only [if_true, Option.some.injEq, List.mem_cons, Prod.mk.injEq, true_and]
      constructor
      · intro h
        exact Or.inl h.symm
      · intro h
        rcases h with h | h
        · exact h.symm
        · exact absurd (List.mem_map_of_mem Prod.fst h) hk0
    · simp only [hk, if_false, List.mem_cons, Prod.mk.injEq]
      rw [ih hnd2]
      constructor
      · intro h
        exact Or.inr h
      · intro h
        rcases h with h | h
        · exact absurd h.1.symm hk
        · exact h

/-- Whatever the order in which the copy loop visits a map with distinct keys, the copy
binds each key as the map does. -/
theorem copy_order_irrelevant (m order : Params) (hnd : (GoMap.keys m).Nodup)
    (hperm : order.Perm m) (k : GoString) :
    GoMap.get (copyParams (some order)) k = GoMap.get m k := by
  have hnd2 : (GoMap.keys order).Nodup := (List.Perm.nodup_iff (hperm.map Prod.fst)).2 hnd
  have hcopy : copyParams (some order) = order := by
    have := foldl_set_eq order [] (by simpa using hnd2)
    simpa [copyParams] using this
  rw [hcopy]
  apply Option.ext
  intro v
  rw [Option.mem_def, Option.mem_def, GoMap.get_eq_some_iff_mem order k v hnd2,
    GoMap.get_eq_some_iff_mem m k v hnd]
  exact List.Perm.mem_iff hperm

theorem matchLoop_nodup (ps xs : List GoString) (acc m : Params)
    (hacc : (GoMap.keys acc).Nodup) (hres : (matchLoop ps xs acc).2 = some m) :
    (GoMap.keys m).Nodup := by
  induction ps generalizing xs acc with
  | nil =>
    simp only [matchLoop, Option.some.injEq] at hres
    rw [← hres]
    exact hacc
  | cons p ps ih =>
    cases xs with
    | nil => simp [matchLoop] at hres
    | cons x xs =>
      unfold matchLoop at hres
      by_cases hpx : p = x
      · simp only [hpx, if_true] at hres
        exact ih xs acc hacc hres
      · by_cases hpar : isParam p = true
        · simp only [hpx, hpar, if_false, if_true] at hres
          exact ih xs _ (GoMap.set_keys_nodup acc _ x hacc) hres
        · simp [hpx, hpar] at hres

theorem goMatch_nodup (P X : GoString) (m : Params) (hres : (goMatch P X).2 = some m) :
    (GoMap.keys m).Nodup := by
  unfold goMatch at hres
  by_cases h : P = X
  · simp [h] at hres
  · simp only [h, if_false] at hres
    by_cases hlen : (Split P slash).length = (Split X slash).length
    · simp only [hlen, ne_eq, not_true_eq_false, if_false] at hres
      exact matchLoop_nodup _ _ [] m (by simp [GoMap.keys]) hres
    · simp [hlen] at hres

/-- The copy loop of the dispatcher puts into the Context the bindings the matcher
returned, and nothing else. -/
theorem copyParams_goMatch (P X : GoString) :
    copyParams (goMatch P X).2 = ((goMatch P X).2).getD [] := by
  cases hres : (goMatch P X).2 with
  | none => simp [copyParams]
  | some m =>
    have hnd := goMatch_nodup P X m hres
    simp only [copyParams, Option.getD_some]
    have := foldl_set_eq m [] (by simpa using hnd)
    simpa using this

theorem get_copyParams_goMatch (P X k : GoString) :
    GoMap.get (copyParams (goMatch P X).2) k = lookup (goMatch P X).2 k := by
  rw [copyParams_goMatch]
  cases (goMatch P X).2 with
  | none => simp [lookup, GoMap.get]
  | some m => simp [lookup]

/-- The loop of the dispatcher stops at the first entry of the enumeration whose pattern
matches, and its outcome is the outcome of that entry's handler. -/
theorem ServeHTTP_first_match (es : List (GoString × HandlerFunc)) (re : Request) (w : World)
    (hex : ∃ e ∈ es, (goMatch e.1 re.URL.Path).1 = true) :
    ∃ (before : List (GoString × HandlerFunc)) (pattern : GoString) (handler : HandlerFunc)
      (after : List (GoString × HandlerFunc)),
      es = before ++ (pattern, handler) :: after ∧
      (∀ e ∈ before, (goMatch e.1 re.URL.Path).1 = false) ∧
      (goMatch pattern re.URL.Path).1 = true ∧
      ServeHTTP es re w =
        handler { para := copyParams (goMatch pattern re.URL.Path).2, req := re } w := by
  induction es with
  | nil => simp at hex
  | cons e es ih =>
    obtain ⟨p, h⟩ := e
    cases hm : goMatch p re.URL.Path with
    | mk ok params =>
      cases ok with
      | true =>
        refine ⟨[], p, h, es, rfl, by simp, by rw [hm], ?_⟩
        simp [ServeHTTP, hm]
      | false =>
        have hex2 : ∃ e ∈ es, (goMatch e.1 re.URL.Path).1 = true := by
          obtain ⟨e, he, hme⟩ := hex
          rcases List.mem_cons.1 he with rfl | he2
          · simp [hm] at hme
          · exact ⟨e, he2, hme⟩
        obtain ⟨before, q, hq, after, heq, hbefore, hmq, hserve⟩ := ih hex2
        refine ⟨(p, h) :: before, q, hq, after, by rw [heq]; rfl, ?_, hmq, ?_⟩
        · intro e he
          rcases List.mem_cons.1 he with rfl | he2
          · simp [hm]
          · exact hbefore e he2
        · rw [← hserve]
          simp [ServeHTTP, hm]

theorem ServeHTTP_no_match (es : List (GoString × HandlerFunc)) (re : Request) (w : World)
    (hno : ∀ e ∈ es, (goMatch e.1 re.URL.Path).1 = false) :
    ServeHTTP es re w = Outcome.returned (NotFound w) := by
  induction es with
  | nil => simp [ServeHTTP]
  | cons e es ih =>
    obtain ⟨p, h⟩ := e
    have hp : (goMatch p re.URL.Path).1 = false := hno (p, h) (List.mem_cons_self _ _)
    cases hm : goMatch p re.URL.Path with
    | mk ok params =>
      rw [hm] at hp
      simp only at hp
      subst hp
      simp only [ServeHTTP, hm]
      exact ih (fun e he => hno e (List.mem_cons_of_mem _ he))

theorem table_HandleFunc (r : router) (method pattern : GoString) (h : HandlerFunc) :
    (r.HandleFunc method pattern h).table method = GoMap.set (r.table method) pattern h := by
  unfold router.HandleFunc router.table
  cases hg : GoMap.get r.handlers method with
  | none => simp [GoMap.get_set_self]
  | some m => simp [GoMap.get_set_self]

/-! ## The claims on the pattern matcher -/

/-- C1: `match(P, X)` reports matched if and only if the splits of `P` and `X` on `"/"` have
the same number of segments and, at every position, the pattern segment equals the path
segment or is a parameter segment (non-empty, beginning with `':'`). -/
theorem match_iff_segments (P X : GoString) :
    (goMatch P X).1 = true ↔
      (Split P slash).length = (Split X slash).length ∧
      ∀ (i : Nat) (hp : i < (Split P slash).length) (hx : i < (Split X slash).length),
        (Split P slash).get ⟨i, hp⟩ = (Split X slash).get ⟨i, hx⟩ ∨
        ∃ name : GoString, (Split P slash).get ⟨i, hp⟩ = colon :: name := by
  rw [goMatch_fst, List.forall₂_iff_get]
  constructor
  · rintro ⟨hlen, h⟩
    refine ⟨hlen, fun i hp hx => ?_⟩
    rcases h i hp hx with heq | hpar
    · exact Or.inl heq
    · exact Or.inr ((isParam_iff _).1 hpar)
  · rintro ⟨hlen, h⟩
    refine ⟨hlen, fun i hp hx => ?_⟩
    rcases h i hp hx with heq | hpar
    · exact Or.inl heq
    · exact Or.inr ((isParam_iff _).2 hpar)

/-- C2, as stated, fails in three ways: on equal strings the map is `nil`, so `id` is not
bound although the segment at position 1 is `:id`; a parameter segment that equals its path
segment binds nothing (`a` in `/:a/:b` against `/:a/c`); and a name that occurs twice keeps
only its last value (`a` in `/:a/:a` against `/1/2` is bound to `2`, not to the segment `1`
at position 1). -/
theorem match_binds_every_param_counterexample :
    ((goMatch (str "/:id") (str "/:id")).1 = true ∧
      (Split (str "/:id") slash)[1]? = some (colon :: str "id") ∧
      (Split (str "/:id") slash)[1]? = some (str ":id") ∧
      lookup (goMatch (str "/:id") (str "/:id")).2 (str "id") = none) ∧
    ((goMatch (str "/:a/:b") (str "/:a/c")).1 = true ∧
      (Split (str "/:a/:b") slash)[1]? = some (colon :: str "a") ∧
      (Split (str "/:a/c") slash)[1]? = some (str ":a") ∧
      lookup (goMatch (str "/:a/:b") (str "/:a/c")).2 (str "a") = none) ∧
    ((goMatch (str "/:a/:a") (str "/1/2")).1 = true ∧
      (Split (str "/:a/:a") slash)[1]? = some (colon :: str "a") ∧
      (Split (str "/1/2") slash)[1]? = some (str "1") ∧
      lookup (goMatch (str "/:a/:a") (str "/1/2")).2 (str "a") = some (str "2")) := by
  decide

/-- C2, amended: when `P` and `X` differ and `match(P, X)` reports matched, then for every
position `i` whose pattern segment is `:name` and differs from the path segment `x` at `i`,
and such that at every later position with the pattern segment `:name` the path segment is
that same text, the returned parameters bind `name` to `x`. -/
theorem match_binds_last_param (P X : GoString) (hne : P ≠ X)
    (hm : (goMatch P X).1 = true) (i : Nat) (name x : GoString)
    (hp : (Split P slash)[i]? = some (colon :: name))
    (hx : (Split X slash)[i]? = some x)
    (hdiff : colon :: name ≠ x)
    (hlater : ∀ (j : Nat) (y : GoString), i < j →
      (Split P slash)[j]? = some (colon :: name) → (Split X slash)[j]? = some y →
      y = colon :: name) :
    lookup (goMatch P X).2 name = some x := by
  have heq := goMatch_eq_matchLoop P X hne hm
  rw [heq] at hm ⊢
  exact matchLoop_binds name x _ _ [] i hm hp hx hdiff hlater

/-- Witness of C2 amended: `/users/:id` against `/users/42` binds `id` to `42`. -/
theorem match_binds_last_param_witness :
    lookup (goMatch (str "/users/:id") (str "/users/42")).2 (str "id") = some (str "42") :=
  match_binds_last_param (str "/users/:id") (str "/users/42") (by decide) (by decide) 2
    (str "id") (str "42") (by decide) (by decide) (by decide)
    (by
      intro j y hij h1 _
      have hs : Split (str "/users/:id") slash = [[], str "users", str ":id"] := by decide
      rw [hs] at h1
      obtain ⟨k, rfl⟩ : ∃ k, j = k + 3 := ⟨j - 3, by omega⟩
      simp at h1)

/-- C8: for a pattern `P` none of whose segments begins with `':'`, `match(P, X)` reports
matched if and only if `P` equals `X`, and then the returned map is `nil`: it binds
nothing. -/
theorem match_literal_iff_eq (P X : GoString)
    (hlit : ∀ seg ∈ Split P slash, seg.head? ≠ some colon) :
    ((goMatch P X).1 = true ↔ P = X) ∧
    ((goMatch P X).1 = true →
      (goMatch P X).2 = none ∧ ∀ k : GoString, lookup (goMatch P X).2 k = none) := by
  have key : (goMatch P X).1 = true → P = X := by
    intro hm
    have hf := (goMatch_fst P X).1 hm
    apply Split_injective P X slash
    have hall : ∀ (ps xs : List GoString),
        (∀ seg ∈ ps, seg.head? ≠ some colon) →
        List.Forall₂ SegOK ps xs → ps = xs := by
      intro ps xs hps h
      induction h with
      | nil => rfl
      | @cons a b l₁ l₂ hab _ ih =>
        have ha : a = b := by
          unfold SegOK at hab
          rcases hab with h1 | h2
          · exact h1
          · obtain ⟨n, hn⟩ := (isParam_iff a).1 h2
            exact absurd (by rw [hn]; rfl) (hps a (List.mem_cons_self _ _))
        rw [ha, ih (fun seg hseg => hps seg (List.mem_cons_of_mem _ hseg))]
    exact hall _ _ hlit hf
  refine ⟨⟨key, ?_⟩, ?_⟩
  · intro h
    subst h
    simp [goMatch]
  · intro hm
    have h := key hm
    subst h
    simp [goMatch, lookup]

/-- Witness of C8: the literal pattern `/about`. -/
theorem match_literal_iff_eq_witness :
    ((goMatch (str "/about") (str "/about")).1 = true ↔ str "/about" = str "/about") ∧
    ((goMatch (str "/about") (str "/about")).1 = true →
      (goMatch (str "/about") (str "/about")).2 = none ∧
      ∀ k : GoString, lookup (goMatch (str "/about") (str "/about")).2 k = none) :=
  match_literal_iff_eq (str "/about") (str "/about") (by decide)

/-- C9: when the numbers of `"/"`-separated segments of `P` and `X` differ, `match(P, X)`
reports no-match. -/
theorem match_length_mismatch (P X : GoString)
    (hlen : (Split P slash).length ≠ (Split X slash).length) :
    (goMatch P X).1 = false := by
  have hne : P ≠ X := by
    intro h
    exact hlen (by rw [h])
  simp [goMatch, hne, hlen]

/-- Witness of C9: `/users/:id` has three segments, `/users/7/addr` four. -/
theorem match_length_mismatch_witness :
    (Split (str "/users/:id") slash).length ≠ (Split (str "/users/7/addr") slash).length ∧
    (goMatch (str "/users/:id") (str "/users/7/addr")).1 = false :=
  ⟨by decide, match_length_mismatch (str "/users/:id") (str "/users/7/addr") (by decide)⟩

/-! ## The claims on the dispatcher -/

/-- C3: for every route table, every order `es` in which the entries registered under the
request's method are enumerated, and every request that at least one of those patterns
matches, the outcome of the dispatcher is the outcome of one call of one handler: a handler
registered under the request's method for a pattern that matches the path (the first such
entry of the enumeration), called on the Context whose bindings are exactly those `match`
returned for that pattern. The dispatcher adds nothing of its own, so no not-found
response. -/
theorem ServeHTTP_invokes_one_matching_handler (r : router)
    (es : List (GoString × HandlerFunc)) (re : Request) (w : World)
    (henum : Enumerates (r.table re.Method) es)
    (hex : ∃ e ∈ r.table re.Method, (goMatch e.1 re.URL.Path).1 = true) :
    ∃ (pattern : GoString) (handler : HandlerFunc) (c : Context),
      (pattern, handler) ∈ r.table re.Method ∧
      (goMatch pattern re.URL.Path).1 = true ∧
      (∃ before after, es = before ++ (pattern, handler) :: after ∧
        ∀ e ∈ before, (goMatch e.1 re.URL.Path).1 = false) ∧
      c.req = re ∧
      (∀ k : GoString, GoMap.get c.para k = lookup (goMatch pattern re.URL.Path).2 k) ∧
      ServeHTTP es re w = handler c w := by
  have hex2 : ∃ e ∈ es, (goMatch e.1 re.URL.Path).1 = true := by
    obtain ⟨e, he, hm⟩ := hex
    exact ⟨e, (List.Perm.mem_iff henum).2 he, hm⟩
  obtain ⟨before, p, h, after, heq, hbefore, hm, hserve⟩ := ServeHTTP_first_match es re w hex2
  refine ⟨p, h, { para := copyParams (goMatch p re.URL.Path).2, req := re }, ?_, hm,
    ⟨before, after, heq, hbefore⟩, rfl, fun k => get_copyParams_goMatch p re.URL.Path k, hserve⟩
  apply (List.Perm.mem_iff henum).1
  rw [heq]
  simp

/-- Witness of C3: the route `/users/:id` of `main` and the request `GET /users/42`. -/
theorem ServeHTTP_invokes_one_matching_handler_witness :
    ∃ (pattern : GoString) (handler : HandlerFunc) (c : Context),
      (pattern, handler) ∈
        [(str "/about", recoverhandler usersIdHandler),
          (str "/users/:id", recoverhandler usersIdHandler)] ∧
      (goMatch pattern (str "/users/42")).1 = true ∧
      (∃ before after,
        [(str "/users/:id", recoverhandler usersIdHandler),
          (str "/about", recoverhandler usersIdHandler)] =
            before ++ (pattern, handler) :: after ∧
        ∀ e ∈ before, (goMatch e.1 (str "/users/42")).1 = false) ∧
      c.req = getRequest (str "/users/42") ∧
      (∀ k : GoString, GoMap.get c.para k = lookup (goMatch pattern (str "/users/42")).2 k) ∧
      ServeHTTP
        [(str "/users/:id", recoverhandler usersIdHandler),
          (str "/about", recoverhandler usersIdHandler)]
        (getRequest (str "/users/42")) emptyWorld = handler c emptyWorld :=
  ServeHTTP_invokes_one_matching_handler
    { handlers := [(str "GET", [(str "/about", recoverhandler usersIdHandler),
        (str "/users/:id", recoverhandler usersIdHandler)])] }
    [(str "/users/:id", recoverhandler usersIdHandler),
      (str "/about", recoverhandler usersIdHandler)]
    (getRequest (str "/users/42")) emptyWorld
    (List.Perm.swap _ _ _)
    ⟨(str "/users/:id", recoverhandler usersIdHandler), List.mem_cons_of_mem _
      (List.mem_cons_self _ _), by decide⟩

/-- C4: when no pattern registered under the request's method matches the request path
(also when the method has no registration at all), the outcome of the dispatcher, for every
enumeration order, is the 404 not-found response written on the sink and a normal return;
no handler contributes to it. -/
theorem ServeHTTP_not_found (r : router) (es : List (GoString × HandlerFunc))
    (re : Request) (w : World)
    (henum : Enumerates (r.table re.Method) es)
    (hno : ∀ e ∈ r.table re.Method, (goMatch e.1 re.URL.Path).1 = false) :
    ServeHTTP es re w =
      Outcome.returned
        { resp := w.resp ++ [SinkCall.Error (str "404 page not found") 404], log := w.log } := by
  rw [ServeHTTP_no_match es re w (fun e he => hno e ((List.Perm.mem_iff henum).1 he))]
  rfl

/-- Witness of C4: `GET /nowhere` on a table that has the route `/about` under `GET`. -/
theorem ServeHTTP_not_found_witness :
    ServeHTTP ((SetPage emptyRouter (str "GET") (str "/about") (str "hi")).table (str "GET"))
        (getRequest (str "/nowhere")) emptyWorld =
      Outcome.returned
        { resp := [] ++ [SinkCall.Error (str "404 page not found") 404], log := [] } :=
  ServeHTTP_not_found (SetPage emptyRouter (str "GET") (str "/about") (str "hi"))
    ((SetPage emptyRouter (str "GET") (str "/about") (str "hi")).table (str "GET"))
    (getRequest (str "/nowhere")) emptyWorld (List.Perm.refl _)
    (by
      intro e he
      have he2 : e ∈ [(str "/about",
          (fun _ w => Outcome.returned (Fprint w (str "hi" ++ str "\n")) : HandlerFunc))] := he
      rw [List.mem_singleton] at he2
      rw [he2]
      decide)

/-- C10: after `HandleFunc(m, p, h1)` followed by `HandleFunc(m, p, h2)` the table holds
`h2` under `(m, p)` and no other handler under that pair; and a request with method `m`
whose path is matched by `p` and by no other pattern registered under `m` is dispatched,
for every enumeration order, to `h2`: the outcome is that of one call of `h2`. -/
theorem HandleFunc_twice_last_wins (r : router) (m p : GoString) (h1 h2 : HandlerFunc)
    (es : List (GoString × HandlerFunc)) (re : Request) (w : World)
    (hmeth : re.Method = m)
    (henum : Enumerates (((r.HandleFunc m p h1).HandleFunc m p h2).table re.Method) es)
    (hmatch : (goMatch p re.URL.Path).1 = true)
    (hother : ∀ q ∈ GoMap.keys (((r.HandleFunc m p h1).HandleFunc m p h2).table m),
      q ≠ p → (goMatch q re.URL.Path).1 = false) :
    GoMap.get (((r.HandleFunc m p h1).HandleFunc m p h2).table m) p = some h2 ∧
    (∀ h : HandlerFunc, (p, h) ∈ ((r.HandleFunc m p h1).HandleFunc m p h2).table m → h = h2) ∧
    ServeHTTP es re w =
      h2 { para := copyParams (goMatch p re.URL.Path).2, req := re } w := by
  rw [hmeth] at henum
  have htab : ((r.HandleFunc m p h1).HandleFunc m p h2).table m =
      GoMap.set (GoMap.set (r.table m) p h1) p h2 := by
    rw [table_HandleFunc, table_HandleFunc]
  have honly : ∀ h : HandlerFunc,
      (p, h) ∈ ((r.HandleFunc m p h1).HandleFunc m p h2).table m → h = h2 := by
    intro h hmem
    rw [htab, GoMap.mem_set] at hmem
    rcases hmem with ⟨_, hne⟩ | heq
    · exact absurd rfl hne
    · exact (Prod.mk.inj heq).2
  refine ⟨by rw [htab]; exact GoMap.get_set_self _ p h2, honly, ?_⟩
  have hin : (p, h2) ∈ ((r.HandleFunc m p h1).HandleFunc m p h2).table m := by
    rw [htab, GoMap.mem_set]
    exact Or.inr rfl
  have hex : ∃ e ∈ es, (goMatch e.1 re.URL.Path).1 = true :=
    ⟨(p, h2), (List.Perm.mem_iff henum).2 hin, hmatch⟩
  obtain ⟨before, q, hq, after, heq, _, hmq, hserve⟩ := ServeHTTP_first_match es re w hex
  have hqin : (q, hq) ∈ ((r.HandleFunc m p h1).HandleFunc m p h2).table m := by
    apply (List.Perm.mem_iff henum).1
    rw [heq]
    simp
  have hqp : q = p := by
    by_contra hne
    have := hother q (List.mem_map_of_mem Prod.fst hqin) hne
    rw [this] at hmq
    exact Bool.false_ne_true hmq
  subst hqp
  rw [hserve, honly hq hqin]

/-- Witness of C10: `/about` registered twice under `GET` on the empty router. -/
theorem HandleFunc_twice_last_wins_witness :
    GoMap.get (((emptyRouter.HandleFunc (str "GET") (str "/about") writeThenPanic).HandleFunc
        (str "GET") (str "/about") usersIdHandler).table (str "GET")) (str "/about") =
      some usersIdHandler ∧
    (∀ h : HandlerFunc,
      (str "/about", h) ∈
        ((emptyRouter.HandleFunc (str "GET") (str "/about") writeThenPanic).HandleFunc
          (str "GET") (str "/about") usersIdHandler).table (str "GET") → h = usersIdHandler) ∧
    ServeHTTP [(str "/about", usersIdHandler)] (getRequest (str "/about")) emptyWorld =
      usersIdHandler
        { para := copyParams (goMatch (str "/about") (getRequest (str "/about")).URL.Path).2,
          req := getRequest (str "/about") } emptyWorld :=
  HandleFunc_twice_last_wins emptyRouter (str "GET") (str "/about") writeThenPanic
    usersIdHandler [(str "/about", usersIdHandler)] (getRequest (str "/about")) emptyWorld
    rfl (List.Perm.refl _) (by decide)
    (by
      intro q hq hne
      have hq2 : q ∈ [str "/about"] := hq
      rw [List.mem_singleton] at hq2
      exact absurd hq2 hne)

/-! ## The claims on the middleware -/

/-- C5, as stated, fails: a handler that calls `panic(nil)`, in a program where `recover()`
then returns `nil`, panics, and the handler produced by `recoverhandler` returns normally
with nothing written and nothing logged: no 500 response and no `Panic : ` line. -/
theorem recoverhandler_nil_panic_counterexample :
    panicNil { para := [], req := getRequest (str "/") } emptyWorld =
      Outcome.panicked none emptyWorld ∧
    recoverhandler panicNil { para := [], req := getRequest (str "/") } emptyWorld =
      Outcome.returned { resp := [], log := [] } := by
  decide

/-- C5, amended: when the inner handler panics with a non-nil value, the handler produced by
`recoverhandler` returns normally, calls `http.Error` once with status 500 and the standard
text of that status, `"Internal Server Error"`, and hands exactly one line to the logger,
`"Panic : "` followed by the details of the panic. -/
theorem recoverhandler_contains_panic (next : HandlerFunc) (c : Context) (w : World)
    (err : PanicValue) (w1 : World) (hp : next c w = Outcome.panicked (some err) w1) :
    StatusText 500 = str "Internal Server Error" ∧
    recoverhandler next c w =
      Outcome.returned
        { resp := w1.resp ++ [SinkCall.Error (StatusText 500) 500],
          log := w1.log ++ [str "Panic : " ++ err.text] } := by
  refine ⟨by decide, ?_⟩
  unfold recoverhandler
  simp only [hp]
  rfl

/-- Witness of C5 amended: the handler of `/users/:id` on the parameter `id = "0"`. -/
theorem recoverhandler_contains_panic_witness :
    StatusText 500 = str "Internal Server Error" ∧
    recoverhandler usersIdHandler
        { para := [(str "id", str "0")], req := getRequest (str "/users/0") } emptyWorld =
      Outcome.returned
        { resp := emptyWorld.resp ++ [SinkCall.Error (StatusText 500) 500],
          log := emptyWorld.log ++
            [str "Panic : " ++ (PanicValue.mk (str "id is zero")).text] } :=
  recoverhandler_contains_panic usersIdHandler
    { para := [(str "id", str "0")], req := getRequest (str "/users/0") } emptyWorld
    { text := str "id is zero" } emptyWorld (by decide)

/-- C6, as stated, fails in two ways. A handler that has written to the sink and then
panics leaves one call on the sink, and after `recoverhandler` the sink holds a second one,
the 500 error response: Recovery did write further. And after a panic with a `nil` value
and nothing written, Recovery writes no error response. -/
theorem recoverhandler_writes_nothing_further_counterexample :
    (writeThenPanic { para := [], req := getRequest (str "/") } emptyWorld =
        Outcome.panicked (some { text := str "boom" })
          { resp := [SinkCall.Fprint (str "partial")], log := [] } ∧
      recoverhandler writeThenPanic { para := [], req := getRequest (str "/") } emptyWorld =
        Outcome.returned
          { resp := [SinkCall.Fprint (str "partial"),
              SinkCall.Error (str "Internal Server Error") 500],
            log := [str "Panic : boom"] }) ∧
    (panicNil { para := [], req := getRequest (str "/about") } emptyWorld =
        Outcome.panicked none { resp := [], log := [] } ∧
      recoverhandler panicNil { para := [], req := getRequest (str "/about") } emptyWorld =
        Outcome.returned { resp := [], log := [] }) := by
  decide

/-- C6, amended: when the inner handler panics with a non-nil value, the Recovery wrapper
returns normally, having logged the line `Panic : ...` and written the generic 500 error
response, whether or not a response has already been written: whatever calls `written` the
inner handler has added to the sink, the sink then holds them followed by that one error
response; so exactly the error response is added if nothing had been written. -/
theorem recoverhandler_always_writes_error (next : HandlerFunc) (c : Context) (w : World)
    (err : PanicValue) (w1 : World) (hp : next c w = Outcome.panicked (some err) w1) :
    (∀ written : List SinkCall, w1.resp = w.resp ++ written →
      recoverhandler next c w =
        Outcome.returned
          { resp := w.resp ++ written ++ [SinkCall.Error (str "Internal Server Error") 500],
            log := w1.log ++ [str "Panic : " ++ err.text] }) ∧
    (w1.resp = w.resp →
      recoverhandler next c w =
        Outcome.returned
          { resp := w.resp ++ [SinkCall.Error (str "Internal Server Error") 500],
            log := w1.log ++ [str "Panic : " ++ err.text] }) := by
  have h : recoverhandler next c w =
      Outcome.returned
        { resp := w1.resp ++ [SinkCall.Error (str "Internal Server Error") 500],
          log := w1.log ++ [str "Panic : " ++ err.text] } := by
    unfold recoverhandler
    simp only [hp]
    rfl
  constructor
  · intro written hw
    rw [h, hw]
  · intro hw
    rw [h, hw]

/-- Witness of C6 amended: the handler that writes and then panics. -/
theorem recoverhandler_always_writes_error_witness :
    (∀ written : List SinkCall,
      (Fprint emptyWorld (str "partial")).resp = emptyWorld.resp ++ written →
      recoverhandler writeThenPanic { para := [], req := getRequest (str "/") } emptyWorld =
        Outcome.returned
          { resp := emptyWorld.resp ++ written ++
              [SinkCall.Error (str "Internal Server Error") 500],
            log := (Fprint emptyWorld (str "partial")).log ++
              [str "Panic : " ++ (PanicValue.mk (str "boom")).text] }) ∧
    ((Fprint emptyWorld (str "partial")).resp = emptyWorld.resp →
      recoverhandler writeThenPanic { para := [], req := getRequest (str "/") } emptyWorld =
        Outcome.returned
          { resp := emptyWorld.resp ++ [SinkCall.Error (str "Internal Server Error") 500],
            log := (Fprint emptyWorld (str "partial")).log ++
              [str "Panic : " ++ (PanicValue.mk (str "boom")).text] }) :=
  recoverhandler_always_writes_error writeThenPanic
    { para := [], req := getRequest (str "/") } emptyWorld { text := str "boom" }
    (Fprint emptyWorld (str "partial")) rfl

/-- C7 fails on the code: on `GET /public/`, a directory modified at instant 100 whose
`index.html` was modified at instant 200, `staticHandler` serves the content of the index
file under the name `/public/index.html`, without calling `next`, but the modification time
it passes to `http.ServeContent` is 100, that of the directory, not 200, that of the file
served. -/
theorem staticHandler_index_modtime_is_directory (next : HandlerFunc) :
    exampleDir (str "/public/") =
      some { Stat := some { IsDir := true, ModTime := 100 }, content := [] } ∧
    exampleDir (joinUnder (str "/public/") indexFile) =
      some { Stat := some { IsDir := false, ModTime := 200 },
             content := str "<html></html>" } ∧
    staticHandler exampleDir joinUnder next
        { para := [], req := getRequest (str "/public/") } emptyWorld =
      Outcome.returned
        { resp := [SinkCall.ServeContent (str "/public/index.html") 100
            { Stat := some { IsDir := false, ModTime := 200 },
              content := str "<html></html>" }],
          log := [] } := by
  exact ⟨by decide, by decide, rfl⟩

/-! ## Lemmas for the remaining claims on the matcher -/

theorem matchLoop_snd_none (ps xs : List GoString) (acc : Params)
    (hf : (matchLoop ps xs acc).1 = false) : (matchLoop ps xs acc).2 = none := by
  induction ps generalizing xs acc with
  | nil => simp [matchLoop] at hf
  | cons p ps ih =>
    cases xs with
    | nil => simp [matchLoop]
    | cons x xs =>
      unfold matchLoop at hf ⊢
      by_cases hpx : p = x
      · simp only [hpx, if_true] at hf ⊢
        exact ih xs acc hf
      · by_cases hpar : isParam p = true
        · simp only [hpx, hpar, if_false, if_true] at hf ⊢
          exact ih xs _ hf
        · simp [hpx, hpar]

/-- A binding of the map the loop returns was in the map the loop started from, or comes
from a position whose pattern segment is `:` followed by the key and whose path segment is
the value. -/
theorem matchLoop_binding_origin (k v : GoString) (ps xs : List GoString) (acc : Params)
    (hb : lookup (matchLoop ps xs acc).2 k = some v) :
    GoMap.get acc k = some v ∨
      ∃ i : Nat, ps[i]? = some (colon :: k) ∧ xs[i]? = some v := by
  induction ps generalizing xs acc with
  | nil =>
    left
    simpa [matchLoop, lookup] using hb
  | cons p ps ih =>
    cases xs with
    | nil => simp [matchLoop, lookup] at hb
    | cons x xs =>
      unfold matchLoop at hb
      by_cases hpx : p = x
      · simp only [hpx, if_true] at hb
        rcases ih xs acc hb with h | ⟨i, h1, h2⟩
        · exact Or.inl h
        · exact Or.inr ⟨i + 1, by simpa using h1, by simpa using h2⟩
      · by_cases hpar : isParam p = true
        · simp only [hpx, hpar, if_false, if_true] at hb
          obtain ⟨n, hn⟩ := (isParam_iff p).1 hpar
          have hdrop : List.drop 1 p = n := by simp [hn]
          rw [hdrop] at hb
          rcases ih xs _ hb with h | ⟨i, h1, h2⟩
          · by_cases hnk : n = k
            · subst hnk
              rw [GoMap.get_set_self] at h
              right
              refine ⟨0, by simp [hn], ?_⟩
              simpa using h
            · rw [GoMap.get_set_ne acc n k x hnk] at h
              exact Or.inl h
          · exact Or.inr ⟨i + 1, by simpa using h1, by simpa using h2⟩
        · simp [hpx, hpar, lookup] at hb

theorem goMatch_binding_origin (P X k v : GoString)
    (hb : lookup (goMatch P X).2 k = some v) :
    ∃ i : Nat, (Split P slash)[i]? = some (colon :: k) ∧ (Split X slash)[i]? = some v := by
  unfold goMatch at hb
  by_cases h : P = X
  · simp [h, lookup] at hb
  · simp only [h, if_false] at hb
    by_cases hlen : (Split P slash).length = (Split X slash).length
    · simp only [hlen, ne_eq, not_true_eq_false, if_false] at hb
      rcases matchLoop_binding_origin k v _ _ [] hb with h0 | hpos
      · simp [GoMap.get] at h0
      · exact hpos
    · simp [hlen, lookup] at hb

/-! ## The remaining claims on the matcher -/

/-- C17: `match` is atomic: whenever `match(P, X)` reports no-match the map it returns is
`nil`, whatever bindings the loop had made before the failing segment. -/
theorem match_no_partial_bindings (P X : GoString) (hf : (goMatch P X).1 = false) :
    (goMatch P X).2 = none := by
  unfold goMatch at hf ⊢
  by_cases h : P = X
  · simp [h] at hf
  · simp only [h, if_false] at hf ⊢
    by_cases hlen : (Split P slash).length = (Split X slash).length
    · simp only [hlen, ne_eq, not_true_eq_false, if_false] at hf ⊢
      exact matchLoop_snd_none _ _ [] hf
    · simp [hlen]

/-- Witness of C17: `/users/:id/addr` against `/users/7/zip` fails at the last segment,
after `id` was bound. -/
theorem match_no_partial_bindings_witness :
    (goMatch (str "/users/:id/addr") (str "/users/7/zip")).1 = false ∧
    (goMatch (str "/users/:id/addr") (str "/users/7/zip")).2 = none :=
  ⟨by decide,
    match_no_partial_bindings (str "/users/:id/addr") (str "/users/7/zip") (by decide)⟩

/-- C18: for every string `s`, the empty one and those with `':'` segments included,
`match(s, s)` reports matched and returns the `nil` map: no parameters. -/
theorem match_self (s : GoString) :
    goMatch s s = (true, none) ∧ ∀ k : GoString, lookup (goMatch s s).2 k = none := by
  have h : goMatch s s = (true, none) := by simp [goMatch]
  exact ⟨h, fun k => by rw [h]; rfl⟩

/-- C19: `match("/users/:id", "/users/42")` reports matched with exactly the binding
`id = "42"`, and `match("/users/:user_id/addr/:addr_id", "/users/7/addr/9")` reports matched
with exactly the bindings `user_id = "7"` and `addr_id = "9"`. -/
theorem match_examples :
    goMatch (str "/users/:id") (str "/users/42") = (true, some [(str "id", str "42")]) ∧
    goMatch (str "/users/:user_id/addr/:addr_id") (str "/users/7/addr/9") =
      (true, some [(str "user_id", str "7"), (str "addr_id", str "9")]) := by
  decide

/-- C16: when the dispatcher resolves a request, for every enumeration order, the handler
it calls gets a Context whose parameter map holds nothing but bindings of the matched
pattern: every key `k` that is bound is the name of a parameter segment `:k` of that
pattern, and its value is the segment of the request path at a position where `:k` stands
in the pattern. -/
theorem ServeHTTP_context_holds_only_pattern_bindings (r : router)
    (es : List (GoString × HandlerFunc)) (re : Request) (w : World)
    (henum : Enumerates (r.table re.Method) es)
    (hex : ∃ e ∈ r.table re.Method, (goMatch e.1 re.URL.Path).1 = true) :
    ∃ (pattern : GoString) (handler : HandlerFunc),
      (pattern, handler) ∈ r.table re.Method ∧
      (goMatch pattern re.URL.Path).1 = true ∧
      ServeHTTP es re w =
        handler { para := copyParams (goMatch pattern re.URL.Path).2, req := re } w ∧
      ∀ k v : GoString,
        GoMap.get (copyParams (goMatch pattern re.URL.Path).2) k = some v →
        ∃ i : Nat, (Split pattern slash)[i]? = some (colon :: k) ∧
          (Split re.URL.Path slash)[i]? = some v := by
  have hex2 : ∃ e ∈ es, (goMatch e.1 re.URL.Path).1 = true := by
    obtain ⟨e, he, hm⟩ := hex
    exact ⟨e, (List.Perm.mem_iff henum).2 he, hm⟩
  obtain ⟨before, p, h, after, heq, _, hm, hserve⟩ := ServeHTTP_first_match es re w hex2
  refine ⟨p, h, ?_, hm, hserve, ?_⟩
  · apply (List.Perm.mem_iff henum).1
    rw [heq]
    simp
  · intro k v hkv
    rw [get_copyParams_goMatch] at hkv
    exact goMatch_binding_origin p re.URL.Path k v hkv

/-- Witness of C16: the two-parameter route of `main` on `GET /users/7/addr/9`. -/
theorem ServeHTTP_context_holds_only_pattern_bindings_witness :
    ∃ (pattern : GoString) (handler : HandlerFunc),
      (pattern, handler) ∈
        (mainRouter exampleEnv exampleDir joinUnder).table
          (getRequest (str "/users/7/addr/9")).Method ∧
      (goMatch pattern (getRequest (str "/users/7/addr/9")).URL.Path).1 = true ∧
      ServeHTTP ((mainRouter exampleEnv exampleDir joinUnder).table (str "GET")).reverse
          (getRequest (str "/users/7/addr/9")) emptyWorld =
        handler
          { para := copyParams
              (goMatch pattern (getRequest (str "/users/7/addr/9")).URL.Path).2,
            req := getRequest (str "/users/7/addr/9") } emptyWorld ∧
      ∀ k v : GoString,
        GoMap.get
          (copyParams (goMatch pattern (getRequest (str "/users/7/addr/9")).URL.Path).2) k =
            some v →
        ∃ i : Nat, (Split pattern slash)[i]? = some (colon :: k) ∧
          (Split (getRequest (str "/users/7/addr/9")).URL.Path slash)[i]? = some v :=
  ServeHTTP_context_holds_only_pattern_bindings (mainRouter exampleEnv exampleDir joinUnder)
    ((mainRouter exampleEnv exampleDir joinUnder).table (str "GET")).reverse
    (getRequest (str "/users/7/addr/9")) emptyWorld
    (List.reverse_perm _)
    ⟨(str "/users/:user_id/addr/:addr_id", _),
      List.mem_cons_of_mem _ (List.mem_cons_of_mem _ (List.mem_cons_of_mem _
        (List.mem_cons_of_mem _ (List.mem_cons_self _ _)))), by decide⟩

/-! ## The claims on logging -/

/-- C11, as stated, fails on its second part: for a handler that calls `panic(nil)`, in a
program where `recover()` then returns `nil`, the chain logs its one completion line and no
`Panic : ` line before it. -/
theorem loghandler_recoverhandler_nil_panic_counterexample :
    panicNil { para := [], req := getRequest (str "/x") } emptyWorld =
      Outcome.panicked none emptyWorld ∧
    loghandler exampleEnv (recoverhandler panicNil)
        { para := [], req := getRequest (str "/x") } emptyWorld =
      Outcome.returned { resp := [], log := [str "[GET] \"/x\" 7ns\n"] } := by
  decide

/-- C11, amended: for every handler `h`, also one that panics, the chain
`loghandler(recoverhandler(h))` returns normally and adds to the log exactly one completion
line `[METHOD] "url" duration`, as the last line: right after the lines of `h` when `h`
returns or panics with a `nil` value, and right after the line `Panic : ...`, which follows
the lines of `h`, when `h` panics with a non-nil value. -/
theorem loghandler_recoverhandler_one_completion_line (env : LogEnv) (h : HandlerFunc)
    (c : Context) (w : World) :
    (∀ w1 : World, h c w = Outcome.returned w1 →
      loghandler env (recoverhandler h) c w =
        Outcome.returned { resp := w1.resp, log := w1.log ++ [completionLine env c.req] }) ∧
    (∀ (err : PanicValue) (w1 : World), h c w = Outcome.panicked (some err) w1 →
      loghandler env (recoverhandler h) c w =
        Outcome.returned
          { resp := w1.resp ++ [SinkCall.Error (str "Internal Server Error") 500],
            log := w1.log ++ [str "Panic : " ++ err.text, completionLine env c.req] }) ∧
    (∀ w1 : World, h c w = Outcome.panicked none w1 →
      loghandler env (recoverhandler h) c w =
        Outcome.returned { resp := w1.resp, log := w1.log ++ [completionLine env c.req] }) ∧
    completionLine env c.req =
      str "[" ++ c.req.Method ++ str "] " ++ env.quote (env.urlString c.req.URL) ++ str " " ++
        env.duration (env.finish - env.start) ++ str "\n" := by
  refine ⟨?_, ?_, ?_, rfl⟩
  · intro w1 hw
    simp only [loghandler, recoverhandler, hw, Printf]
  · intro err w1 hw
    simp only [loghandler, recoverhandler, hw, Printf, Error, List.append_assoc,
      List.singleton_append]
    rfl
  · intro w1 hw
    simp only [loghandler, recoverhandler, hw, Printf]

/-- C12: the handler produced by `loghandler` calls `next` once, on the Context and the
state it was given: when `next` returns, the outcome is that of `next` with the completion
line added after everything `next` wrote and logged; when `next` panics, the outcome is that
of `next` and no completion line is logged. The line never comes before an effect of
`next`. -/
theorem loghandler_logs_after_next (env : LogEnv) (next : HandlerFunc) (c : Context)
    (w : World) :
    (∀ w1 : World, next c w = Outcome.returned w1 →
      loghandler env next c w =
        Outcome.returned { resp := w1.resp, log := w1.log ++ [completionLine env c.req] }) ∧
    (∀ (err : Option PanicValue) (w1 : World), next c w = Outcome.panicked err w1 →
      loghandler env next c w = Outcome.panicked err w1) := by
  constructor
  · intro w1 hw
    simp only [loghandler, hw, Printf]
  · intro err w1 hw
    simp only [loghandler, hw]

/-! ## The claims on the static fallback -/

theorem HasSuffix_append_slash (path : GoString) :
    HasSuffix (path ++ str "/") (str "/") = true := by
  have hs : str "/" = [slash] := by decide
  rw [hs]
  simp [HasSuffix]

/-- When `staticHandler` answers by itself, whatever `next` is, with a call of
`http.Redirect`. -/
theorem staticHandler_redirects_iff (dir : Dir) (pathJoin : GoString → GoString → GoString)
    (c : Context) (w : World) (url : GoString) (code : Nat) :
    (∀ next : HandlerFunc,
      staticHandler dir pathJoin next c w = Outcome.returned (Redirect w url code)) ↔
    ((c.req.Method = str "GET" ∨ c.req.Method = str "HEAD") ∧
      (∃ (f : File) (ff : FileInfo),
        dir c.req.URL.Path = some f ∧ f.Stat = some ff ∧ ff.IsDir = true) ∧
      HasSuffix c.req.URL.Path (str "/") = false ∧
      url = c.req.URL.Path ++ str "/" ∧ code = 302) := by
  constructor
  · intro hall
    have h := hall (fun _ w0 => Outcome.panicked none w0)
    unfold staticHandler at h
    by_cases hm : c.req.Method ≠ str "GET" ∧ c.req.Method ≠ str "HEAD"
    · simp [hm] at h
    · simp only [hm, if_false] at h
      have hmeth : c.req.Method = str "GET" ∨ c.req.Method = str "HEAD" := by
        by_contra hcon
        exact hm ⟨fun h1 => hcon (Or.inl h1), fun h2 => hcon (Or.inr h2)⟩
      cases hd : dir c.req.URL.Path with
      | none => simp [hd] at h
      | some f =>
        simp only [hd] at h
        cases hst : f.Stat with
        | none => simp [hst] at h
        | some ff =>
          simp only [hst] at h
          by_cases hdir : ff.IsDir = true
          · simp only [hdir, if_true] at h
            by_cases hsuf : HasSuffix c.req.URL.Path (str "/") = true
            · simp only [hsuf, Bool.not_true, Bool.false_eq_true, if_false] at h
              cases hd2 : dir (pathJoin c.req.URL.Path indexFile) with
              | none => simp [hd2] at h
              | some f2 =>
                simp only [hd2] at h
                cases hst2 : f2.Stat with
                | none => simp [hst2] at h
                | some ff2 =>
                  simp only [hst2] at h
                  by_cases hdir2 : ff2.IsDir = true
                  · simp [hdir2] at h
                  · simp [hdir2, ServeContent, Redirect] at h
            · have hsuf2 : HasSuffix c.req.URL.Path (str "/") = false := by
                simpa using hsuf
              simp only [hsuf2, Bool.not_false, if_true] at h
              have h2 : url = c.req.URL.Path ++ str "/" ∧ code = 302 := by
                simp only [Redirect, Outcome.returned.injEq, World.mk.injEq,
                  List.append_cancel_left_eq, List.cons.injEq, SinkCall.Redirect.injEq,
                  and_true] at h
                exact ⟨h.1.symm, h.2.symm⟩
              exact ⟨hmeth, ⟨f, ff, rfl, hst, hdir⟩, hsuf2, h2.1, h2.2⟩
          · simp [hdir, ServeContent, Redirect] at h
  · rintro ⟨hmeth, ⟨f, ff, hd, hst, hdir⟩, hsuf, hurl, hcode⟩ next
    have hm : ¬ (c.req.Method ≠ str "GET" ∧ c.req.Method ≠ str "HEAD") := by
      intro hcon
      rcases hmeth with h1 | h2
      · exact hcon.1 h1
      · exact hcon.2 h2
    unfold staticHandler
    simp only [hm, if_false, hd, hst, hdir, if_true, hsuf, Bool.not_false, hurl, hcode]

/-- What `staticHandler` does is fixed before `next` comes into play: under the redirect
conditions it redirects, and otherwise it either hands over to `next` and does nothing else,
or serves content with one call of `http.ServeContent`. -/
theorem staticHandler_cases (dir : Dir) (pathJoin : GoString → GoString → GoString)
    (c : Context) (w : World) :
    (((c.req.Method = str "GET" ∨ c.req.Method = str "HEAD") ∧
        (∃ (f : File) (ff : FileInfo),
          dir c.req.URL.Path = some f ∧ f.Stat = some ff ∧ ff.IsDir = true) ∧
        HasSuffix c.req.URL.Path (str "/") = false) ∧
      ∀ next : HandlerFunc, staticHandler dir pathJoin next c w =
        Outcome.returned (Redirect w (c.req.URL.Path ++ str "/") 302)) ∨
    (¬ ((c.req.Method = str "GET" ∨ c.req.Method = str "HEAD") ∧
        (∃ (f : File) (ff : FileInfo),
          dir c.req.URL.Path = some f ∧ f.Stat = some ff ∧ ff.IsDir = true) ∧
        HasSuffix c.req.URL.Path (str "/") = false) ∧
      ((∀ next : HandlerFunc, staticHandler dir pathJoin next c w = next c w) ∨
        ∃ (name : GoString) (modtime : Nat) (content : File),
          ∀ next : HandlerFunc, staticHandler dir pathJoin next c w =
            Outcome.returned (ServeContent w name modtime content))) := by
  by_cases hm : c.req.Method ≠ str "GET" ∧ c.req.Method ≠ str "HEAD"
  · right
    refine ⟨?_, Or.inl ?_⟩
    · rintro ⟨hmeth, -, -⟩
      rcases hmeth with h1 | h2
      · exact hm.1 h1
      · exact hm.2 h2
    · intro next
      unfold staticHandler
      rw [if_pos hm]
  · have hmeth : c.req.Method = str "GET" ∨ c.req.Method = str "HEAD" := by
      by_contra hcon
      exact hm ⟨fun h1 => hcon (Or.inl h1), fun h2 => hcon (Or.inr h2)⟩
    cases hd : dir c.req.URL.Path with
    | none =>
      right
      refine ⟨?_, Or.inl ?_⟩
      · rintro ⟨-, ⟨f, ff, hd2, -, -⟩, -⟩
        exact Option.noConfusion hd2
      · intro next
        unfold staticHandler
        simp only [hm, if_false, hd]
    | some f =>
      cases hst : f.Stat with
      | none =>
        right
        refine ⟨?_, Or.inl ?_⟩
        · rintro ⟨-, ⟨f2, ff, hd2, hst2, -⟩, -⟩
          have hf : f = f2 := Option.some.inj hd2
          rw [← hf, hst] at hst2
          exact Option.noConfusion hst2
        · intro next
          unfold staticHandler
          simp only [hm, if_false, hd, hst]
      | some ff =>
        by_cases hdir : ff.IsDir = true
        · by_cases hsuf : HasSuffix c.req.URL.Path (str "/") = true
          · right
            refine ⟨?_, ?_⟩
            · rintro ⟨-, -, hsuf2⟩
              rw [hsuf] at hsuf2
              exact Bool.noConfusion hsuf2
            · cases hd2 : dir (pathJoin c.req.URL.Path indexFile) with
              | none =>
                left
                intro next
                unfold staticHandler
                simp only [hm, if_false, hd, hst, hdir, if_true, hsuf, Bool.not_true,
                  Bool.false_eq_true, hd2]
              | some f2 =>
                cases hst2 : f2.Stat with
                | none =>
                  left
                  intro next
                  unfold staticHandler
                  simp only [hm, if_false, hd, hst, hdir, if_true, hsuf, Bool.not_true,
                    Bool.false_eq_true, hd2, hst2]
                | some ff2 =>
                  by_cases hdir2 : ff2.IsDir = true
                  · left
                    intro next
                    unfold staticHandler
                    simp only [hm, if_false, hd, hst, hdir, if_true, hsuf, Bool.not_true,
                      Bool.false_eq_true, hd2, hst2, hdir2]
                  · right
                    refine ⟨pathJoin c.req.URL.Path indexFile, ff.ModTime, f2, ?_⟩
                    intro next
                    unfold staticHandler
                    simp only [hm, if_false, hd, hst, hdir, if_true, hsuf, Bool.not_true,
                      Bool.false_eq_true, hd2, hst2, hdir2]
          · have hsuf2 : HasSuffix c.req.URL.Path (str "/") = false := by
              simpa using hsuf
            left
            refine ⟨⟨hmeth, ⟨f, ff, rfl, hst, hdir⟩, hsuf2⟩, ?_⟩
            intro next
            unfold staticHandler
            simp only [hm, if_false, hd, hst, hdir, if_true, hsuf2, Bool.not_false]
        · right
          refine ⟨?_, Or.inr ⟨c.req.URL.Path, ff.ModTime, f, ?_⟩⟩
          · rintro ⟨-, ⟨f2, ff2, hd2, hst2, hdir2⟩, -⟩
            have hf : f = f2 := Option.some.inj hd2
            rw [← hf, hst] at hst2
            have hff : ff = ff2 := Option.some.inj hst2
            rw [← hff] at hdir2
            exact hdir hdir2
          · intro next
            unfold staticHandler
            simp only [hm, if_false, hd, hst, hdir, Bool.false_eq_true]

/-- C13: `staticHandler` answers with a redirect exactly when the method is GET or HEAD, the
request path opens as a directory and does not end in `"/"`. Under these conditions the
outcome, for every `next`, is the one call `http.Redirect` with the request path plus `"/"`
and status 302, so `next` is not called. In every other case the outcome, for every `next`, is
that of `next` alone or one call of `http.ServeContent`: no redirect comes from
`staticHandler`. A request for the redirect target, which ends in `"/"`, is such a case. -/
theorem staticHandler_redirect_exactly_when (dir : Dir)
    (pathJoin : GoString → GoString → GoString) (c : Context) (w : World) :
    (((c.req.Method = str "GET" ∨ c.req.Method = str "HEAD") ∧
        (∃ (f : File) (ff : FileInfo),
          dir c.req.URL.Path = some f ∧ f.Stat = some ff ∧ ff.IsDir = true) ∧
        HasSuffix c.req.URL.Path (str "/") = false) →
      ∀ next : HandlerFunc, staticHandler dir pathJoin next c w =
        Outcome.returned
          { resp := w.resp ++ [SinkCall.Redirect (c.req.URL.Path ++ str "/") 302],
            log := w.log }) ∧
    (¬ ((c.req.Method = str "GET" ∨ c.req.Method = str "HEAD") ∧
        (∃ (f : File) (ff : FileInfo),
          dir c.req.URL.Path = some f ∧ f.Stat = some ff ∧ ff.IsDir = true) ∧
        HasSuffix c.req.URL.Path (str "/") = false) →
      (∀ next : HandlerFunc, staticHandler dir pathJoin next c w = next c w) ∨
      ∃ (name : GoString) (modtime : Nat) (content : File),
        ∀ next : HandlerFunc, staticHandler dir pathJoin next c w =
          Outcome.returned
            { resp := w.resp ++ [SinkCall.ServeContent name modtime content],
              log := w.log }) ∧
    (∀ (url : GoString) (code : Nat),
      (∀ next : HandlerFunc,
        staticHandler dir pathJoin next c w = Outcome.returned (Redirect w url code)) ↔
      ((c.req.Method = str "GET" ∨ c.req.Method = str "HEAD") ∧
        (∃ (f : File) (ff : FileInfo),
          dir c.req.URL.Path = some f ∧ f.Stat = some ff ∧ ff.IsDir = true) ∧
        HasSuffix c.req.URL.Path (str "/") = false ∧
        url = c.req.URL.Path ++ str "/" ∧ code = 302)) ∧
    (∀ (c2 : Context) (w2 : World),
      c2.req.URL.Path = c.req.URL.Path ++ str "/" →
      (∀ next : HandlerFunc, staticHandler dir pathJoin next c2 w2 = next c2 w2) ∨
      ∃ (name : GoString) (modtime : Nat) (content : File),
        ∀ next : HandlerFunc, staticHandler dir pathJoin next c2 w2 =
          Outcome.returned
            { resp := w2.resp ++ [SinkCall.ServeContent name modtime content],
              log := w2.log }) := by
  refine ⟨?_, ?_, fun url code => staticHandler_redirects_iff dir pathJoin c w url code, ?_⟩
  · intro hcond next
    rcases staticHandler_cases dir pathJoin c w with ⟨_, hred⟩ | ⟨hn, _⟩
    · exact hred next
    · exact absurd hcond hn
  · intro hn
    rcases staticHandler_cases dir pathJoin c w with ⟨hcond, _⟩ | ⟨_, hrest⟩
    · exact absurd hcond hn
    · exact hrest
  · intro c2 w2 hpath
    rcases staticHandler_cases dir pathJoin c2 w2 with ⟨hcond, _⟩ | ⟨_, hrest⟩
    · have hsuf := hcond.2.2
      rw [hpath, HasSuffix_append_slash] at hsuf
      exact Bool.noConfusion hsuf
    · exact hrest

/-- C14: on a GET or HEAD request whose static resolution fails (the path does not open, or
its metadata cannot be read, or it is a directory ending in `"/"` whose index file does not
open, has unreadable metadata or is itself a directory), the outcome of `staticHandler` is
that of one call of `next` on the same Context and state: nothing is written by
`staticHandler` itself. -/
theorem staticHandler_falls_through_on_failure (dir : Dir)
    (pathJoin : GoString → GoString → GoString) (next : HandlerFunc) (c : Context) (w : World)
    (hmeth : c.req.Method = str "GET" ∨ c.req.Method = str "HEAD")
    (hfail : dir c.req.URL.Path = none ∨
      (∃ f : File, dir c.req.URL.Path = some f ∧ f.Stat = none) ∨
      (∃ (f : File) (ff : FileInfo),
        dir c.req.URL.Path = some f ∧ f.Stat = some ff ∧ ff.IsDir = true ∧
        HasSuffix c.req.URL.Path (str "/") = true ∧
        (dir (pathJoin c.req.URL.Path indexFile) = none ∨
          ∃ f2 : File, dir (pathJoin c.req.URL.Path indexFile) = some f2 ∧
            (f2.Stat = none ∨ ∃ ff2 : FileInfo, f2.Stat = some ff2 ∧ ff2.IsDir = true)))) :
    staticHandler dir pathJoin next c w = next c w := by
  have hm : ¬ (c.req.Method ≠ str "GET" ∧ c.req.Method ≠ str "HEAD") := by
    intro hcon
    rcases hmeth with h1 | h2
    · exact hcon.1 h1
    · exact hcon.2 h2
  unfold staticHandler
  simp only [hm, if_false]
  rcases hfail with hd | ⟨f, hd, hst⟩ | ⟨f, ff, hd, hst, hdir, hsuf, hidx⟩
  · simp only [hd]
  · simp only [hd, hst]
  · simp only [hd, hst, hdir, if_true, hsuf, Bool.not_true, Bool.false_eq_true, if_false]
    rcases hidx with hd2 | ⟨f2, hd2, hst2 | ⟨ff2, hst2, hdir2⟩⟩
    · simp only [hd2]
    · simp only [hd2, hst2]
    · simp only [hd2, hst2, hdir2, if_true]

/-- Witness of C14: `GET /missing` on a provider that has no such file. -/
theorem staticHandler_falls_through_on_failure_witness :
    staticHandler exampleDir joinUnder usersIdHandler
        { para := [], req := getRequest (str "/missing") } emptyWorld =
      usersIdHandler { para := [], req := getRequest (str "/missing") } emptyWorld :=
  staticHandler_falls_through_on_failure exampleDir joinUnder usersIdHandler
    { para := [], req := getRequest (str "/missing") } emptyWorld
    (Or.inl rfl) (Or.inl (by decide))

/-- C15: on a request whose method is neither GET nor HEAD, `staticHandler(next)` is `next`:
its outcome is that of one call of `next` on the same Context and state, and it is the same
for every file provider, which is not consulted. -/
theorem staticHandler_other_methods_pass_through (dir : Dir)
    (pathJoin : GoString → GoString → GoString) (next : HandlerFunc) (c : Context) (w : World)
    (hget : c.req.Method ≠ str "GET") (hhead : c.req.Method ≠ str "HEAD") :
    staticHandler dir pathJoin next c w = next c w ∧
    ∀ (dir2 : Dir) (pathJoin2 : GoString → GoString → GoString),
      staticHandler dir2 pathJoin2 next c w = staticHandler dir pathJoin next c w := by
  have hall : ∀ (d : Dir) (j : GoString → GoString → GoString),
      staticHandler d j next c w = next c w := by
    intro d j
    unfold staticHandler
    simp only [ne_eq, hget, not_false_eq_true, hhead, and_self, if_true]
  exact ⟨hall dir pathJoin, fun d j => by rw [hall d j, hall dir pathJoin]⟩

/-- Witness of C15: a `POST` on the directory `/public/`, which a `GET` would serve. -/
theorem staticHandler_other_methods_pass_through_witness :
    staticHandler exampleDir joinUnder usersIdHandler
        { para := [], req := request (str "POST") (str "/public/") } emptyWorld =
      usersIdHandler { para := [], req := request (str "POST") (str "/public/") }
        emptyWorld ∧
    ∀ (dir2 : Dir) (pathJoin2 : GoString → GoString → GoString),
      staticHandler dir2 pathJoin2 usersIdHandler
          { para := [], req := request (str "POST") (str "/public/") } emptyWorld =
        staticHandler exampleDir joinUnder usersIdHandler
          { para := [], req := request (str "POST") (str "/public/") } emptyWorld :=
  staticHandler_other_methods_pass_through exampleDir joinUnder usersIdHandler
    { para := [], req := request (str "POST") (str "/public/") } emptyWorld
    (by decide) (by decide)

/-! ## The routes of `main` -/

theorem forall₂_SegOK_literal (ps xs : List GoString) (h : List.Forall₂ SegOK ps xs)
    (i : Nat) (seg : GoString) (hp : ps[i]? = some seg) (hlit : isParam seg = false) :
    xs[i]? = some seg := by
  induction h generalizing i with
  | nil => simp at hp
  | @cons a b l₁ l₂ hab _ ih =>
    cases i with
    | zero =>
      have ha : a = seg := by simpa using hp
      unfold SegOK at hab
      rcases hab with h1 | h2
      · simp [← h1, ha]
      · rw [ha, hlit] at h2
        exact Bool.noConfusion h2
    | succ i =>
      have hp2 : l₁[i]? = some seg := by simpa using hp
      simpa using ih i hp2

/-- A pattern whose second segment is literal fixes the number of segments and the second
segment of the paths it matches. -/
theorem match_sigOf (P X : GoString) (hm : (goMatch P X).1 = true)
    (hlit : literalAt1 P = true) : sigOf X = sigOf P := by
  have hf := (goMatch_fst P X).1 hm
  unfold sigOf
  unfold literalAt1 at hlit
  cases hseg : (Split P slash)[1]? with
  | none => simp [hseg] at hlit
  | some seg =>
    simp only [hseg, Bool.not_eq_true'] at hlit
    rw [forall₂_SegOK_literal _ _ hf 1 seg hseg hlit, hf.length_eq]

theorem GoMap.get_eq_none_of_not_mem {K V : Type} [DecidableEq K] (m : GoMap K V) (k : K)
    (hk : k ∉ GoMap.keys m) : GoMap.get m k = none := by
  induction m with
  | nil => rfl
  | cons e m ih =>
    obtain ⟨k0, v0⟩ := e
    have h0 : ¬ k0 = k := by
      intro h
      exact hk (by simp [GoMap.keys, h])
    have h1 : k ∉ GoMap.keys m := by
      intro h
      exact hk (by
        simp only [GoMap.keys, List.map_cons, List.mem_cons]
        exact Or.inr h)
    simp only [GoMap.get, h0, if_false]
    exact ih h1

/-- When the keys of a table are distinct and at most one of them matches the path, every
enumeration order gives the same outcome. -/
theorem ServeHTTP_order_irrelevant (table es es' : List (GoString × HandlerFunc))
    (re : Request) (w : World) (hnd : (GoMap.keys table).Nodup)
    (huniq : ∀ p q : GoString, p ∈ GoMap.keys table → q ∈ GoMap.keys table →
      (goMatch p re.URL.Path).1 = true → (goMatch q re.URL.Path).1 = true → p = q)
    (h1 : es.Perm table) (h2 : es'.Perm table) :
    ServeHTTP es re w = ServeHTTP es' re w := by
  by_cases hex : ∃ e ∈ table, (goMatch e.1 re.URL.Path).1 = true
  · have hex1 : ∃ e ∈ es, (goMatch e.1 re.URL.Path).1 = true := by
      obtain ⟨e, he, hm⟩ := hex
      exact ⟨e, (List.Perm.mem_iff h1).2 he, hm⟩
    have hex2 : ∃ e ∈ es', (goMatch e.1 re.URL.Path).1 = true := by
      obtain ⟨e, he, hm⟩ := hex
      exact ⟨e, (List.Perm.mem_iff h2).2 he, hm⟩
    obtain ⟨b1, p1, g1, a1, heq1, _, hm1, hs1⟩ := ServeHTTP_first_match es re w hex1
    obtain ⟨b2, p2, g2, a2, heq2, _, hm2, hs2⟩ := ServeHTTP_first_match es' re w hex2
    have hin1 : (p1, g1) ∈ table := by
      apply (List.Perm.mem_iff h1).1
      rw [heq1]
      simp
    have hin2 : (p2, g2) ∈ table := by
      apply (List.Perm.mem_iff h2).1
      rw [heq2]
      simp
    have hp : p1 = p2 :=
      huniq p1 p2 (List.mem_map_of_mem Prod.fst hin1) (List.mem_map_of_mem Prod.fst hin2)
        hm1 hm2
    subst hp
    have hg1 := (GoMap.get_eq_some_iff_mem table p1 g1 hnd).2 hin1
    have hg2 := (GoMap.get_eq_some_iff_mem table p1 g2 hnd).2 hin2
    have hg : g1 = g2 := by
      rw [hg1] at hg2
      exact Option.some.inj hg2
    rw [hs1, hs2, hg]
  · have hno : ∀ e ∈ table, (goMatch e.1 re.URL.Path).1 = false := by
      intro e he
      by_contra hcon
      exact hex ⟨e, he, by simpa using hcon⟩
    rw [ServeHTTP_no_match es re w (fun e he => hno e ((List.Perm.mem_iff h1).1 he)),
      ServeHTTP_no_match es' re w (fun e he => hno e ((List.Perm.mem_iff h2).1 he))]

/-- The patterns `main` registers under a method: five under `GET`, two under `POST`, none
under any other. -/
theorem mainRouter_keys (env : LogEnv) (dir : Dir)
    (pathJoin : GoString → GoString → GoString) (method : GoString) :
    GoMap.keys ((mainRouter env dir pathJoin).table method) =
      (if method = str "GET" then
        [str "/", str "/about", str "/public/index.html", str "/users/:id",
          str "/users/:user_id/addr/:addr_id"]
      else if method = str "POST" then [str "/users", str "/users/:user_id/addr/"]
      else []) := by
  by_cases hg : method = str "GET"
  · subst hg
    rfl
  · by_cases hp : method = str "POST"
    · subst hp
      rfl
    · simp only [hg, hp, if_false]
      have hk : GoMap.keys (mainRouter env dir pathJoin).handlers = [str "GET", str "POST"] :=
        rfl
      have hnone : GoMap.get (mainRouter env dir pathJoin).handlers method = none := by
        apply GoMap.get_eq_none_of_not_mem
        rw [hk]
        simp only [List.mem_cons, List.mem_singleton, List.not_mem_nil, or_false, not_or]
        exact ⟨hg, hp⟩
      simp [router.table, hnone, GoMap.keys]

set_option maxRecDepth 100000 in
/-- Among the patterns `main` registers under one method, no two have the same number of
segments and the same literal second segment. -/
theorem mainRouter_keys_separated (env : LogEnv) (dir : Dir)
    (pathJoin : GoString → GoString → GoString) (method : GoString) :
    (GoMap.keys ((mainRouter env dir pathJoin).table method)).Nodup ∧
    (∀ p ∈ GoMap.keys ((mainRouter env dir pathJoin).table method), literalAt1 p = true) ∧
    (∀ p ∈ GoMap.keys ((mainRouter env dir pathJoin).table method),
      ∀ q ∈ GoMap.keys ((mainRouter env dir pathJoin).table method),
        sigOf p = sigOf q → p = q) := by
  rw [mainRouter_keys]
  by_cases hg : method = str "GET"
  · simp only [hg, if_true]
    decide
  · by_cases hp : method = str "POST"
    · simp only [hg, hp, if_false, if_true]
      decide
    · simp [hg, hp]

/-- C20: the route table `main` registers respects the uniqueness invariant: for every
request (method and path), at most one of the patterns registered under the method matches
the path, and so the outcome of the dispatcher is the same for every two orders in which the
entries of the method are enumerated. -/
theorem mainRouter_dispatch_unambiguous (env : LogEnv) (dir : Dir)
    (pathJoin : GoString → GoString → GoString) (re : Request)
    (es es' : List (GoString × HandlerFunc)) (w : World)
    (h1 : Enumerates ((mainRouter env dir pathJoin).table re.Method) es)
    (h2 : Enumerates ((mainRouter env dir pathJoin).table re.Method) es') :
    (∀ p q : GoString,
      p ∈ GoMap.keys ((mainRouter env dir pathJoin).table re.Method) →
      q ∈ GoMap.keys ((mainRouter env dir pathJoin).table re.Method) →
      (goMatch p re.URL.Path).1 = true → (goMatch q re.URL.Path).1 = true → p = q) ∧
    ServeHTTP es re w = ServeHTTP es' re w := by
  obtain ⟨hnd, hlit, hsep⟩ := mainRouter_keys_separated env dir pathJoin re.Method
  have huniq : ∀ p q : GoString,
      p ∈ GoMap.keys ((mainRouter env dir pathJoin).table re.Method) →
      q ∈ GoMap.keys ((mainRouter env dir pathJoin).table re.Method) →
      (goMatch p re.URL.Path).1 = true → (goMatch q re.URL.Path).1 = true → p = q := by
    intro p q hp hq hmp hmq
    apply hsep p hp q hq
    rw [← match_sigOf p re.URL.Path hmp (hlit p hp),
      ← match_sigOf q re.URL.Path hmq (hlit q hq)]
  exact ⟨huniq, ServeHTTP_order_irrelevant _ es es' re w hnd huniq h1 h2⟩

/-- Witness of C20: `GET /users/42` on the `GET` entries in the order of registration and in
the opposite order. -/
theorem mainRouter_dispatch_unambiguous_witness :
    (∀ p q : GoString,
      p ∈ GoMap.keys ((mainRouter exampleEnv exampleDir joinUnder).table
        (getRequest (str "/users/42")).Method) →
      q ∈ GoMap.keys ((mainRouter exampleEnv exampleDir joinUnder).table
        (getRequest (str "/users/42")).Method) →
      (goMatch p (getRequest (str "/users/42")).URL.Path).1 = true →
      (goMatch q (getRequest (str "/users/42")).URL.Path).1 = true → p = q) ∧
    ServeHTTP ((mainRouter exampleEnv exampleDir joinUnder).table (str "GET"))
        (getRequest (str "/users/42")) emptyWorld =
      ServeHTTP ((mainRouter exampleEnv exampleDir joinUnder).table (str "GET")).reverse
        (getRequest (str "/users/42")) emptyWorld :=
  mainRouter_dispatch_unambiguous exampleEnv exampleDir joinUnder
    (getRequest (str "/users/42"))
    ((mainRouter exampleEnv exampleDir joinUnder).table (str "GET"))
    ((mainRouter exampleEnv exampleDir joinUnder).table (str "GET")).reverse emptyWorld
    (List.Perm.refl _) (List.reverse_perm _)

end GoServer
